import Mathlib

/-!
Shallow embedding of `djblets/extensions/base.py`: the extension lifecycle
manager (`ExtensionManager`), extension settings (`Settings`), hook
registration (`ExtensionHook` / `ExtensionHookPoint`), and the enable /
disable / load state machine, together with theorems checking the
natural-language specification against this code.

Python dictionaries are modelled as insertion-ordered association lists,
Python exceptions as explicit error values threaded through the results
(side effects performed before a raise are kept, as in Python), and the
observable side effects (asset copies, registration saves, signals, ...)
as an ordered event trace.
-/

deriving instance DecidableEq for Except

namespace Djblets

/-- Python `dict` lookup on an insertion-ordered association list. -/
def alookup {α : Type} (l : List (String × α)) (k : String) : Option α :=
  match l with
  | [] => none
  | (k', v) :: rest => if k' = k then some v else alookup rest k

/-- `k in d` for the association-list dictionary model. -/
def amem {α : Type} (l : List (String × α)) (k : String) : Bool :=
  (alookup l k).isSome

/-- Python `d[k] = v`: overwrite in place if present, else append
(CPython dicts preserve insertion order). -/
def aset {α : Type} (l : List (String × α)) (k : String) (v : α) :
    List (String × α) :=
  if amem l k then l.map (fun p => if p.1 = k then (k, v) else p)
  else l ++ [(k, v)]

/-- Python `del d[k]`. -/
def adel {α : Type} (l : List (String × α)) (k : String) :
    List (String × α) :=
  l.filter (fun p => p.1 ≠ k)

/-- Apply a function to the value stored under `k`, if any. -/
def aupd {α : Type} (l : List (String × α)) (k : String) (f : α → α) :
    List (String × α) :=
  l.map (fun p => if p.1 = k then (k, f p.2) else p)

/-! ## Settings (`Settings` in base.py)

`Settings.load` runs `self.update(self.extension.registration.settings)`
inside a `try`/`except ValueError: pass`.  The registration's stored blob
is modelled as `Except Unit (List (String × Nat))`: `.error ()` stands for
a corrupt blob whose deserialization raises `ValueError`. -/

/-- `d[k] = v` for the settings dictionary (same semantics as `aset`). -/
def dictSet (d : List (String × Nat)) (k : String) (v : Nat) :
    List (String × Nat) :=
  aset d k v

/-- Python `dict.update`: assign every key/value pair of the argument,
in order, into the receiver. -/
def dictUpdate (d : List (String × Nat)) :
    List (String × Nat) → List (String × Nat)
  | [] => d
  | (k, v) :: rest => dictUpdate (dictSet d k v) rest

/-- `Settings.load`: `self.update(registration.settings)` with
`ValueError` (a corrupt blob) swallowed, leaving the in-memory mapping
untouched.  `mem` is the current in-memory contents of the settings
dictionary. -/
def settingsLoad (mem : List (String × Nat))
    (blob : Except Unit (List (String × Nat))) : List (String × Nat) :=
  match blob with
  | Except.error _ => mem
  | Except.ok kvs => dictUpdate mem kvs

/-- What the spec sentence describes: `load()` *replaces* the in-memory
contents with the persisted blob, and keeps the mapping *empty* when the
blob is corrupt. -/
def settingsLoadSpec (_mem : List (String × Nat))
    (blob : Except Unit (List (String × Nat))) : List (String × Nat) :=
  match blob with
  | Except.error _ => []
  | Except.ok kvs => kvs

/-! ## Data model for the lifecycle manager -/

/-- A `RegisteredExtension` database row, as used by base.py:
`enabled`, `installed`, and the settings blob. -/
structure Registration where
  enabled : Bool
  installed : Bool
  settingsBlob : Except Unit (List (String × Nat))
deriving Repr, DecidableEq

/-- A hook object: its hook-point kind (the `ExtensionHookPoint`
metaclass it registers with), an identifier distinguishing it from the
other hooks the same extension constructs, and the owning extension's id
(the `extension` argument of `ExtensionHook.__init__`). -/
structure Hook where
  kind : String
  hid : Nat
  owner : String
deriving Repr, DecidableEq

/-- An extension class (`Extension` subclass) as the manager sees it:
its declared `requirements` (extension ids), `is_configurable`, whether
its package ships an `htdocs` tree, the hooks its constructor creates,
failure switches for the two install side effects (the
`shutil.copytree` asset copy and the django-evolution migration), its
`registration` row, and its `ExtensionInfo` mutable fields. -/
structure ExtClass where
  requirements : List String
  is_configurable : Bool
  hasHtdocs : Bool
  copyFails : Bool
  migrationFails : Bool
  hookSpecs : List (String × Nat)
  registration : Registration
  infoEnabled : Bool
  infoInstalled : Bool
  infoRequirements : List String
deriving Repr, DecidableEq

/-- A live extension instance: its owned-hook set (`self.hooks`) and its
`Settings` dictionary contents, plus whether `_install_admin_urls`
attached `admin_urlpatterns` to it. -/
structure InstState where
  hooks : List Hook
  settings : List (String × Nat)
  hasAdminUrls : Bool
deriving Repr, DecidableEq

/-- Observable side effects, recorded in order of occurrence. -/
inductive Event where
  | assetRemoved (id : String)
  | assetCopied (id : String)
  | registrationSaved (id : String)
  | migrated (id : String)
  | routesAdded (id : String)
  | routesRemoved (id : String)
  | appAdded (id : String)
  | appRemoved (id : String)
  | templatetagsReset
  | initialized (id : String)
  | uninitialized (id : String)
  | hookRemoved (h : Hook)
deriving Repr, DecidableEq

/-- Python exceptions that can escape the modelled operations. -/
inductive PyError where
  | invalidExtensionError (id : String)
  | installExtensionError
  | enablingExtensionError
  | osError
  | runtimeErrorDictChanged
  | recursionError
  | assertionError
deriving Repr, DecidableEq

/-- The state of one `ExtensionManager` plus the process-wide state it
touches: `_extension_classes`, `_extension_instances`, the hook-point
registries (all kinds merged into one ordered list; a kind's list is the
subsequence with that `kind`), the installed admin url patterns,
`settings.INSTALLED_APPS`, and the set of extension ids whose static
asset tree currently exists under `EXTENSIONS_STATIC_ROOT`. -/
structure MgrState where
  classes : List (String × ExtClass)
  instances : List (String × InstState)
  hookRegistry : List Hook
  adminUrls : List String
  installedApps : List String
  fsAssets : List String
deriving Repr, DecidableEq

/-- Result of an operation that can raise: the state as left behind
(Python keeps side effects performed before a raise), the events emitted,
and the escaping exception, if any. -/
structure StepRes where
  s : MgrState
  evs : List Event
  err : Option PyError
deriving Repr, DecidableEq

/-- Result of `enable_extension`: additionally the returned value
(`some id` when the freshly initialized instance is returned, `none`
when the function falls off a bare `return`). -/
structure EnableRes where
  s : MgrState
  evs : List Event
  err : Option PyError
  ret : Option String
deriving Repr, DecidableEq

/-- Mutate (and save) the registration row of extension `id`. -/
def setRegistration (s : MgrState) (id : String)
    (f : Registration → Registration) : MgrState :=
  { s with classes := aupd s.classes id
                        (fun c => { c with registration := f c.registration }) }

/-- `ExtensionManager._add_to_installed_apps`. -/
def addToInstalledApps (s : MgrState) (id : String) : MgrState × List Event :=
  if id ∈ s.installedApps then (s, [])
  else ({ s with installedApps := s.installedApps ++ [id] }, [Event.appAdded id])

/-- `ExtensionManager._remove_from_installed_apps`. -/
def removeFromInstalledApps (s : MgrState) (id : String) :
    MgrState × List Event :=
  if id ∈ s.installedApps then
    ({ s with installedApps := s.installedApps.erase id }, [Event.appRemoved id])
  else (s, [])

/-- The hooks an extension class's constructor creates
(`ExtensionHook.__init__` records the owning extension and registers the
hook with its hook point). -/
def mkHooks (id : String) (specs : List (String × Nat)) : List Hook :=
  specs.map (fun p => { kind := p.1, hid := p.2, owner := id })

/-- `ExtensionManager._install_extension`: wipe and re-copy the htdocs
tree (the copy can raise an `OSError`, which is *not* an
`InstallExtensionError`), mark `installed=True` and save, add to
installed apps, run syncdb/evolve (an evolve `CommandError` becomes
`InstallExtensionError` — raised *after* `installed=True` was already
persisted), remove from installed apps again, mark installed and save
once more.  `c` is the class object bound by the caller; its immutable
attributes are read from it, its registration row is updated through the
state. -/
def installExtension (s0 : MgrState) (id : String) (c : ExtClass) : StepRes :=
  let (s1, evs1) :=
    if id ∈ s0.fsAssets
    then ({ s0 with fsAssets := s0.fsAssets.erase id }, [Event.assetRemoved id])
    else (s0, [])
  if c.hasHtdocs && c.copyFails then
    ⟨s1, evs1, some PyError.osError⟩
  else
    let (s2, evs2) :=
      if c.hasHtdocs
      then ({ s1 with fsAssets := s1.fsAssets ++ [id] },
            evs1 ++ [Event.assetCopied id])
      else (s1, evs1)
    let s3 := setRegistration s2 id (fun r => { r with installed := true })
    let evs3 := evs2 ++ [Event.registrationSaved id]
    let (s4, evs4a) := addToInstalledApps s3 id
    let evs4 := evs3 ++ evs4a
    if c.migrationFails then
      ⟨s4, evs4, some PyError.installExtensionError⟩
    else
      let (s5, evs5a) := removeFromInstalledApps s4 id
      let s6 := setRegistration s5 id (fun r => { r with installed := true })
      ⟨s6, evs4 ++ [Event.migrated id] ++ evs5a ++ [Event.registrationSaved id],
       none⟩

/-- `ExtensionManager._init_extension`: assert no live instance exists
yet, construct the instance (its constructor loads `Settings` from the
registration blob and registers its hooks), record it as the live
instance, install admin urls when configurable, sync the
`ExtensionInfo` flags, add to installed apps, reset the templatetags
cache, and send `extension_initialized`. -/
def initExtension (s : MgrState) (id : String) : StepRes :=
  match alookup s.classes id with
  | none => ⟨s, [], none⟩
  | some c =>
    if amem s.instances id then ⟨s, [], some PyError.assertionError⟩
    else
      let hooks := mkHooks id c.hookSpecs
      let inst : InstState :=
        { hooks := hooks,
          settings := settingsLoad [] c.registration.settingsBlob,
          hasAdminUrls := c.is_configurable }
      let s1 := { s with instances := s.instances ++ [(id, inst)],
                         hookRegistry := s.hookRegistry ++ hooks }
      let (s2, evs2) :=
        if c.is_configurable
        then ({ s1 with adminUrls := s1.adminUrls ++ [id] },
              [Event.routesAdded id])
        else (s1, [])
      let cs3 := aupd s2.classes id (fun c' =>
        { c' with infoInstalled := c'.registration.installed,
                  infoEnabled := true })
      let (s4, evs4) := addToInstalledApps { s2 with classes := cs3 } id
      ⟨s4, evs2 ++ evs4 ++ [Event.templatetagsReset, Event.initialized id],
       none⟩

/-- `ExtensionManager._uninit_extension`: shut the instance down (which
removes every owned hook from its hook-point registry), remove the admin
url patterns it installed, remove it from installed apps, reset the
templatetags cache, clear `info.enabled`, send `extension_uninitialized`
and drop the live instance. -/
def uninitExtension (s : MgrState) (id : String) : MgrState × List Event :=
  match alookup s.instances id with
  | none => (s, [])
  | some inst =>
    let reg1 := inst.hooks.foldl (fun reg h => reg.erase h) s.hookRegistry
    let s1 := { s with hookRegistry := reg1 }
    let evs1 := inst.hooks.map Event.hookRemoved
    let (s2, evs2) :=
      if inst.hasAdminUrls
      then ({ s1 with adminUrls := s1.adminUrls.erase id },
            [Event.routesRemoved id])
      else (s1, [])
    let (s3, evs3) := removeFromInstalledApps s2 id
    let cs4 := aupd s3.classes id (fun c' => { c' with infoEnabled := false })
    let s4 := { s3 with classes := cs4 }
    let s5 := { s4 with instances := adel s4.instances id }
    (s5, evs1 ++ evs2 ++ evs3 ++
         [Event.templatetagsReset, Event.uninitialized id])

/-- `ExtensionManager._uninstall_extension`: remove the extension's
static asset tree if it exists; never touches the registration row. -/
def uninstallExtension (s : MgrState) (id : String) : MgrState × List Event :=
  if id ∈ s.fsAssets
  then ({ s with fsAssets := s.fsAssets.erase id }, [Event.assetRemoved id])
  else (s, [])

/-- `ExtensionManager.get_dependent_extensions`, specialised to the case
its caller `disable_extension` has already established (`id` enabled and
known): scan every other class's resolved `info.requirements` for a
match. -/
def getDependentExtensions (s : MgrState) (id : String) : List String :=
  (s.classes.filter
    (fun p => p.1 != id && p.2.infoRequirements.contains id)).map (·.1)

/-- A `for` loop over a list of extension ids, applying one lifecycle
step (`enable_extension` / `disable_extension`) to each in turn; an
exception aborts the loop and propagates. -/
def stepLoop (step : MgrState → String → StepRes) :
    MgrState → List String → StepRes
  | s, [] => ⟨s, [], none⟩
  | s, rid :: rest =>
    let er := step s rid
    match er.err with
    | some e => ⟨er.s, er.evs, some e⟩
    | none =>
      let rr := stepLoop step er.s rest
      ⟨rr.s, er.evs ++ rr.evs, rr.err⟩

/-- `ExtensionManager.enable_extension`, with explicit recursion fuel
(the Python recursion over `requirements` has no depth guard; exhausted
fuel models Python's `RecursionError`).  Already-enabled ids fall into a
bare `return` (value `none`); unknown ids raise
`InvalidExtensionError`; failing requirements propagate their exception;
a failing install raises (an `InstallExtensionError` is re-raised as
`EnablingExtensionError`); otherwise `enabled=True` is saved and the
initialized instance is returned. -/
def enableExt : Nat → MgrState → String → EnableRes
  | 0, s, _ => ⟨s, [], some PyError.recursionError, none⟩
  | fuel + 1, s, id =>
    if amem s.instances id then
      ⟨s, [], none, none⟩
    else
      match alookup s.classes id with
      | none => ⟨s, [], some (PyError.invalidExtensionError id), none⟩
      | some c =>
        let r := stepLoop
          (fun s' rid =>
            let er := enableExt fuel s' rid
            ⟨er.s, er.evs, er.err⟩)
          s c.requirements
        match r.err with
        | some e => ⟨r.s, r.evs, some e, none⟩
        | none =>
          let ir := installExtension r.s id c
          match ir.err with
          | some PyError.installExtensionError =>
            ⟨ir.s, r.evs ++ ir.evs, some PyError.enablingExtensionError, none⟩
          | some e => ⟨ir.s, r.evs ++ ir.evs, some e, none⟩
          | none =>
            let s1 := setRegistration ir.s id
              (fun reg => { reg with enabled := true })
            let ie := initExtension s1 id
            match ie.err with
            | some e =>
              ⟨ie.s, r.evs ++ ir.evs ++ [Event.registrationSaved id] ++ ie.evs,
               some e, none⟩
            | none =>
              ⟨ie.s, r.evs ++ ir.evs ++ [Event.registrationSaved id] ++ ie.evs,
               none, some id⟩

/-- The requirements loop of `enable_extension` at a given fuel. -/
def enableReqs (fuel : Nat) (s : MgrState) (ids : List String) : StepRes :=
  stepLoop
    (fun s' rid =>
      let er := enableExt fuel s' rid
      ⟨er.s, er.evs, er.err⟩)
    s ids

/-- The tail of `disable_extension` once the cascade has finished
(base.py lines 350-353): uninstall the asset tree, uninitialize the
instance, set `enabled=False` on the registration and save it. -/
def disableFinish (s : MgrState) (id : String) : MgrState × List Event :=
  let (s1, evs1) := uninstallExtension s id
  let (s2, evs2) := uninitExtension s1 id
  let s3 := setRegistration s2 id (fun reg => { reg with enabled := false })
  (s3, evs1 ++ evs2 ++ [Event.registrationSaved id])

/-- `ExtensionManager.disable_extension`: a silent no-op when `id` has
no live instance (note this covers *unknown* ids too, since the
instance check precedes the known-class check); otherwise cascade over
`get_dependent_extensions`, then uninstall, uninitialize, and save
`enabled=False`.  Fuel bounds the reverse-dependency recursion. -/
def disableExt : Nat → MgrState → String → StepRes
  | 0, s, _ => ⟨s, [], some PyError.recursionError⟩
  | fuel + 1, s, id =>
    if amem s.instances id then
      match alookup s.classes id with
      | none => ⟨s, [], some (PyError.invalidExtensionError id)⟩
      | some _ =>
        let dr := stepLoop (disableExt fuel) s (getDependentExtensions s id)
        match dr.err with
        | some e => ⟨dr.s, dr.evs, some e⟩
        | none =>
          ⟨(disableFinish dr.s id).1,
           dr.evs ++ (disableFinish dr.s id).2, none⟩
    else
      ⟨s, [], none⟩

/-- The reconciliation loop at the end of `ExtensionManager.load`: a
`for` over `self._extension_classes.iteritems()` whose body either
resolves `info.requirements` (for ids found by the new pass) or
disables and `del`etes the entry (for stale ids).  Deleting resizes the
dict being iterated, so — with CPython 2 semantics — the *next* step of
the iterator raises `RuntimeError("dictionary changed size during
iteration")`; the `mutated` flag carries that state.  `items` is the
sequence of entries the iterator yields, `found` the ids of the new
enumeration pass. -/
def reconcilePass (fuel : Nat) (found : List String) :
    List (String × ExtClass) → Bool → MgrState → List Event → StepRes
  | [], mutated, s, evs =>
    if mutated then ⟨s, evs, some PyError.runtimeErrorDictChanged⟩
    else ⟨s, evs, none⟩
  | (name, c) :: rest, mutated, s, evs =>
    if mutated then ⟨s, evs, some PyError.runtimeErrorDictChanged⟩
    else if name ∈ found then
      match c.requirements.find? (fun rid => !(amem s.classes rid)) with
      | some rid => ⟨s, evs, some (PyError.invalidExtensionError rid)⟩
      | none =>
        let cs1 := aupd s.classes name
          (fun c' => { c' with infoRequirements := c'.requirements })
        reconcilePass fuel found rest false { s with classes := cs1 } evs
    else
      let dr := if amem s.instances name then disableExt fuel s name
                else ⟨s, [], none⟩
      match dr.err with
      | some e => ⟨dr.s, evs ++ dr.evs, some e⟩
      | none =>
        let s1 := { dr.s with classes := adel dr.s.classes name }
        reconcilePass fuel found rest true s1 (evs ++ dr.evs)

/-- The per-entrypoint phase of `ExtensionManager.load`: record each
discovered class (keeping the already-loaded class object, with its
registration and info, when the id is already known) and initialize it
right away when its registration says `enabled` and no live instance
exists. -/
def loadEntrypoints (s : MgrState) :
    List (String × ExtClass) → StepRes
  | [] => ⟨s, [], none⟩
  | (name, c) :: rest =>
    let s1 := if amem s.classes name then s
              else { s with classes := s.classes ++ [(name, c)] }
    let reg := match alookup s1.classes name with
               | some c' => c'.registration
               | none => c.registration
    let ie :=
      if reg.enabled && !(amem s1.instances name) then initExtension s1 name
      else ⟨s1, [], none⟩
    match ie.err with
    | some e => ⟨ie.s, ie.evs, some e⟩
    | none =>
      let r := loadEntrypoints ie.s rest
      ⟨r.s, ie.evs ++ r.evs, r.err⟩

/-- `ExtensionManager.load`: the entrypoint pass followed by the
reconciliation loop over the (now updated) known-class dict. -/
def load (fuel : Nat) (s : MgrState) (found : List (String × ExtClass)) :
    StepRes :=
  let ep := loadEntrypoints s found
  match ep.err with
  | some e => ⟨ep.s, ep.evs, some e⟩
  | none =>
    let r := reconcilePass fuel (found.map (·.1)) ep.s.classes false ep.s []
    ⟨r.s, ep.evs ++ r.evs, r.err⟩

/-! ## Association-list dictionary lemmas -/

theorem alookup_append {α : Type} (l1 l2 : List (String × α)) (k : String) :
    alookup (l1 ++ l2) k =
      match alookup l1 k with
      | some v => some v
      | none => alookup l2 k := by
  induction l1 with
  | nil => simp [alookup]
  | cons p rest ih =>
    by_cases h : p.1 = k <;> simp [alookup, h, ih]

theorem alookup_cons_pos {α : Type} (a : String) (b : α)
    (rest : List (String × α)) (k : String) (h : a = k) :
    alookup ((a, b) :: rest) k = some b := by
  simp [alookup, h]

theorem alookup_cons_neg {α : Type} (a : String) (b : α)
    (rest : List (String × α)) (k : String) (h : ¬ a = k) :
    alookup ((a, b) :: rest) k = alookup rest k := by
  simp [alookup, h]

theorem aupd_cons_pos {α : Type} (a : String) (b : α)
    (rest : List (String × α)) (k : String) (f : α → α) (h : a = k) :
    aupd ((a, b) :: rest) k f = (k, f b) :: aupd rest k f := by
  simp [aupd, h]

theorem aupd_cons_neg {α : Type} (a : String) (b : α)
    (rest : List (String × α)) (k : String) (f : α → α) (h : ¬ a = k) :
    aupd ((a, b) :: rest) k f = (a, b) :: aupd rest k f := by
  simp [aupd, h]

theorem adel_cons_pos {α : Type} (a : String) (b : α)
    (rest : List (String × α)) (k : String) (h : a = k) :
    adel ((a, b) :: rest) k = adel rest k := by
  simp [adel, h]

theorem adel_cons_neg {α : Type} (a : String) (b : α)
    (rest : List (String × α)) (k : String) (h : ¬ a = k) :
    adel ((a, b) :: rest) k = (a, b) :: adel rest k := by
  simp [adel, h]

theorem alookup_aupd {α : Type} (l : List (String × α)) (k j : String)
    (f : α → α) :
    alookup (aupd l k f) j =
      if k = j then (alookup l j).map f else alookup l j := by
  induction l with
  | nil => simp [alookup, aupd]
  | cons p rest ih =>
    obtain ⟨a, b⟩ := p
    by_cases hak : a = k
    · rw [aupd_cons_pos a b rest k f hak]
      by_cases hkj : k = j
      · rw [alookup_cons_pos k (f b) _ j hkj,
            alookup_cons_pos a b rest j (hak.trans hkj), if_pos hkj]
        rfl
      · rw [alookup_cons_neg k (f b) _ j hkj, ih, if_neg hkj, if_neg hkj,
            alookup_cons_neg a b rest j (fun h => hkj (hak ▸ h))]
    · rw [aupd_cons_neg a b rest k f hak]
      by_cases haj : a = j
      · have hkj : ¬ k = j := fun h => hak (haj ▸ h ▸ rfl)
        rw [alookup_cons_pos a b _ j haj, if_neg hkj,
            alookup_cons_pos a b rest j haj]
      · rw [alookup_cons_neg a b _ j haj, ih,
            alookup_cons_neg a b rest j haj]

theorem alookup_adel {α : Type} (l : List (String × α)) (k j : String) :
    alookup (adel l k) j = if j = k then none else alookup l j := by
  induction l with
  | nil => simp [alookup, adel]
  | cons p rest ih =>
    obtain ⟨a, b⟩ := p
    by_cases hak : a = k
    · rw [adel_cons_pos a b rest k hak, ih]
      by_cases hjk : j = k
      · simp [hjk]
      · rw [if_neg hjk, if_neg hjk,
            alookup_cons_neg a b rest j (fun h => hjk (h ▸ hak ▸ rfl))]
    · rw [adel_cons_neg a b rest k hak]
      by_cases haj : a = j
      · have hjk : ¬ j = k := fun h => hak (haj.trans h)
        rw [alookup_cons_pos a b _ j haj, if_neg hjk,
            alookup_cons_pos a b rest j haj]
      · rw [alookup_cons_neg a b _ j haj, ih,
            alookup_cons_neg a b rest j haj]

theorem alookup_replaceMap {α : Type} (l : List (String × α)) (k j : String)
    (v : α) :
    alookup (l.map (fun p => if p.1 = k then (k, v) else p)) j =
      if k = j then (if amem l k then some v else none) else alookup l j := by
  induction l with
  | nil => simp [alookup, amem]
  | cons p rest ih =>
    obtain ⟨a, b⟩ := p
    rw [List.map_cons]
    by_cases hak : a = k
    · rw [show (if (a, b).1 = k then (k, v) else (a, b)) = (k, v)
            by simp [hak]]
      by_cases hkj : k = j
      · rw [alookup_cons_pos k v _ j hkj, if_pos hkj]
        have : amem ((a, b) :: rest) k = true := by
          simp [amem, alookup, hak]
        rw [this, if_pos rfl]
      · rw [alookup_cons_neg k v _ j hkj, ih, if_neg hkj, if_neg hkj,
            alookup_cons_neg a b rest j (fun h => hkj (hak ▸ h))]
    · rw [show (if (a, b).1 = k then (k, v) else (a, b)) = (a, b)
            by simp [hak]]
      have hmem : amem ((a, b) :: rest) k = amem rest k := by
        simp [amem, alookup, hak]
      by_cases haj : a = j
      · have hkj : ¬ k = j := fun h => hak (haj ▸ h ▸ rfl)
        rw [alookup_cons_pos a b _ j haj, if_neg hkj,
            alookup_cons_pos a b rest j haj]
      · rw [alookup_cons_neg a b _ j haj, ih, hmem,
            alookup_cons_neg a b rest j haj]

theorem alookup_aset {α : Type} (l : List (String × α)) (k j : String)
    (v : α) :
    alookup (aset l k v) j = if k = j then some v else alookup l j := by
  by_cases hm : amem l k
  · simpa [aset, hm] using alookup_replaceMap l k j v
  · rw [aset, if_neg (by simpa using hm), alookup_append]
    have hnone : alookup l k = none := by
      simpa [amem, Option.not_isSome_iff_eq_none] using hm
    by_cases hkj : k = j
    · subst hkj
      simp [hnone, alookup]
    · cases h : alookup l j <;> simp [alookup, hkj, h]

theorem amem_append {α : Type} (l1 l2 : List (String × α)) (k : String) :
    amem (l1 ++ l2) k = (amem l1 k || amem l2 k) := by
  rw [amem, alookup_append]
  cases h : alookup l1 k <;> simp [amem, h]

/-! ## Settings lemmas (claim C9) -/

theorem alookup_dictUpdate (kvs : List (String × Nat))
    (d : List (String × Nat)) (k : String) :
    alookup (dictUpdate d kvs) k =
      match alookup (dictUpdate [] kvs) k with
      | some v => some v
      | none => alookup d k := by
  induction kvs generalizing d with
  | nil => simp [dictUpdate, alookup]
  | cons p rest ih =>
    rw [dictUpdate, dictUpdate, ih (dictSet d p.1 p.2),
        ih (dictSet [] p.1 p.2)]
    cases h : alookup (dictUpdate [] rest) k
    · simp only []
      by_cases hk : p.1 = k <;>
        simp [dictSet, alookup_aset, hk, alookup]
    · simp

/-! ## Frame lemmas for the lifecycle helpers -/

theorem amem_aupd {α : Type} (l : List (String × α)) (k j : String)
    (f : α → α) :
    amem (aupd l k f) j = amem l j := by
  rw [amem, amem, alookup_aupd]
  by_cases h : k = j <;> simp [h]

theorem setRegistration_frame (s : MgrState) (id : String)
    (f : Registration → Registration) :
    (setRegistration s id f).instances = s.instances ∧
    (setRegistration s id f).hookRegistry = s.hookRegistry ∧
    (setRegistration s id f).adminUrls = s.adminUrls ∧
    (setRegistration s id f).installedApps = s.installedApps ∧
    (setRegistration s id f).fsAssets = s.fsAssets :=
  ⟨rfl, rfl, rfl, rfl, rfl⟩

theorem alookup_setRegistration (s : MgrState) (id j : String)
    (f : Registration → Registration) :
    alookup (setRegistration s id f).classes j =
      if id = j
      then (alookup s.classes j).map
             (fun c => { c with registration := f c.registration })
      else alookup s.classes j := by
  have h := alookup_aupd s.classes id j
    (fun c => { c with registration := f c.registration })
  exact h

theorem addToInstalledApps_classes (s : MgrState) (id : String) :
    (addToInstalledApps s id).1.classes = s.classes := by
  by_cases h : id ∈ s.installedApps <;> simp [addToInstalledApps, h]

theorem addToInstalledApps_instances (s : MgrState) (id : String) :
    (addToInstalledApps s id).1.instances = s.instances := by
  by_cases h : id ∈ s.installedApps <;> simp [addToInstalledApps, h]

theorem addToInstalledApps_hookRegistry (s : MgrState) (id : String) :
    (addToInstalledApps s id).1.hookRegistry = s.hookRegistry := by
  by_cases h : id ∈ s.installedApps <;> simp [addToInstalledApps, h]

theorem addToInstalledApps_adminUrls (s : MgrState) (id : String) :
    (addToInstalledApps s id).1.adminUrls = s.adminUrls := by
  by_cases h : id ∈ s.installedApps <;> simp [addToInstalledApps, h]

theorem addToInstalledApps_fsAssets (s : MgrState) (id : String) :
    (addToInstalledApps s id).1.fsAssets = s.fsAssets := by
  by_cases h : id ∈ s.installedApps <;> simp [addToInstalledApps, h]

theorem removeFromInstalledApps_classes (s : MgrState) (id : String) :
    (removeFromInstalledApps s id).1.classes = s.classes := by
  by_cases h : id ∈ s.installedApps <;> simp [removeFromInstalledApps, h]

theorem removeFromInstalledApps_instances (s : MgrState) (id : String) :
    (removeFromInstalledApps s id).1.instances = s.instances := by
  by_cases h : id ∈ s.installedApps <;> simp [removeFromInstalledApps, h]

theorem removeFromInstalledApps_hookRegistry (s : MgrState) (id : String) :
    (removeFromInstalledApps s id).1.hookRegistry = s.hookRegistry := by
  by_cases h : id ∈ s.installedApps <;> simp [removeFromInstalledApps, h]

theorem removeFromInstalledApps_adminUrls (s : MgrState) (id : String) :
    (removeFromInstalledApps s id).1.adminUrls = s.adminUrls := by
  by_cases h : id ∈ s.installedApps <;> simp [removeFromInstalledApps, h]

theorem removeFromInstalledApps_fsAssets (s : MgrState) (id : String) :
    (removeFromInstalledApps s id).1.fsAssets = s.fsAssets := by
  by_cases h : id ∈ s.installedApps <;> simp [removeFromInstalledApps, h]

theorem uninstallExtension_classes (s : MgrState) (id : String) :
    (uninstallExtension s id).1.classes = s.classes := by
  by_cases h : id ∈ s.fsAssets <;> simp [uninstallExtension, h]

theorem uninstallExtension_instances (s : MgrState) (id : String) :
    (uninstallExtension s id).1.instances = s.instances := by
  by_cases h : id ∈ s.fsAssets <;> simp [uninstallExtension, h]

theorem uninstallExtension_hookRegistry (s : MgrState) (id : String) :
    (uninstallExtension s id).1.hookRegistry = s.hookRegistry := by
  by_cases h : id ∈ s.fsAssets <;> simp [uninstallExtension, h]

theorem uninstallExtension_adminUrls (s : MgrState) (id : String) :
    (uninstallExtension s id).1.adminUrls = s.adminUrls := by
  by_cases h : id ∈ s.fsAssets <;> simp [uninstallExtension, h]

theorem uninstallExtension_installedApps (s : MgrState) (id : String) :
    (uninstallExtension s id).1.installedApps = s.installedApps := by
  by_cases h : id ∈ s.fsAssets <;> simp [uninstallExtension, h]

theorem installExtension_instances (s : MgrState) (id : String)
    (c : ExtClass) :
    (installExtension s id c).s.instances = s.instances := by
  by_cases hfs : id ∈ s.fsAssets <;>
  by_cases hh : c.hasHtdocs = true <;>
  by_cases hcf : c.copyFails = true <;>
  by_cases hmf : c.migrationFails = true <;>
  simp [installExtension, hfs, hh, hcf, hmf, setRegistration,
        addToInstalledApps_instances, removeFromInstalledApps_instances]

theorem installExtension_hookRegistry (s : MgrState) (id : String)
    (c : ExtClass) :
    (installExtension s id c).s.hookRegistry = s.hookRegistry := by
  by_cases hfs : id ∈ s.fsAssets <;>
  by_cases hh : c.hasHtdocs = true <;>
  by_cases hcf : c.copyFails = true <;>
  by_cases hmf : c.migrationFails = true <;>
  simp [installExtension, hfs, hh, hcf, hmf, setRegistration,
        addToInstalledApps_hookRegistry, removeFromInstalledApps_hookRegistry]

theorem installExtension_adminUrls (s : MgrState) (id : String)
    (c : ExtClass) :
    (installExtension s id c).s.adminUrls = s.adminUrls := by
  by_cases hfs : id ∈ s.fsAssets <;>
  by_cases hh : c.hasHtdocs = true <;>
  by_cases hcf : c.copyFails = true <;>
  by_cases hmf : c.migrationFails = true <;>
  simp [installExtension, hfs, hh, hcf, hmf, setRegistration,
        addToInstalledApps_adminUrls, removeFromInstalledApps_adminUrls]

theorem installExtension_classes_amem (s : MgrState) (id : String)
    (c : ExtClass) (j : String) :
    amem (installExtension s id c).s.classes j = amem s.classes j := by
  by_cases hfs : id ∈ s.fsAssets <;>
  by_cases hh : c.hasHtdocs = true <;>
  by_cases hcf : c.copyFails = true <;>
  by_cases hmf : c.migrationFails = true <;>
  simp [installExtension, hfs, hh, hcf, hmf, setRegistration, amem_aupd,
        addToInstalledApps_classes, removeFromInstalledApps_classes]

/-- No initialization signal is ever sent from `_install_extension`. -/
theorem installExtension_no_init_event (s : MgrState) (id : String)
    (c : ExtClass) (j : String) :
    Event.initialized j ∉ (installExtension s id c).evs := by
  by_cases hfs : id ∈ s.fsAssets <;>
  by_cases hh : c.hasHtdocs = true <;>
  by_cases hcf : c.copyFails = true <;>
  by_cases hmf : c.migrationFails = true <;>
  by_cases ha1 : id ∈ s.installedApps <;>
  simp [installExtension, hfs, hh, hcf, hmf, ha1, setRegistration,
        addToInstalledApps, removeFromInstalledApps]

/-- When the asset copy fails, `_install_extension` raises the plain
`OSError` from `shutil.copytree` and has not yet touched the
registration row or the class dict. -/
theorem installExtension_copyfail (s : MgrState) (id : String)
    (c : ExtClass) (hh : c.hasHtdocs = true) (hcf : c.copyFails = true) :
    (installExtension s id c).err = some PyError.osError ∧
    (installExtension s id c).s.classes = s.classes := by
  by_cases hfs : id ∈ s.fsAssets <;>
  simp [installExtension, hfs, hh, hcf]

/-- When the migration fails, `_install_extension` raises
`InstallExtensionError` — but `installed=True` has already been saved to
the registration row. -/
theorem installExtension_migfail (s : MgrState) (id : String)
    (c : ExtClass) (hcc : (c.hasHtdocs && c.copyFails) = false)
    (hmf : c.migrationFails = true) (j : String) :
    (installExtension s id c).err = some PyError.installExtensionError ∧
    alookup (installExtension s id c).s.classes j =
      (if id = j
       then (alookup s.classes j).map (fun c' =>
         { c' with registration :=
             { c'.registration with installed := true } })
       else alookup s.classes j) := by
  by_cases hfs : id ∈ s.fsAssets <;>
  by_cases hh : c.hasHtdocs = true <;>
  by_cases hcf : c.copyFails = true <;>
  simp_all <;>
  simp [installExtension, hfs, hh, hcf, hmf, setRegistration,
        addToInstalledApps_classes, alookup_aupd]

/-- When neither install side effect fails, `_install_extension`
returns normally with `installed=True` saved. -/
theorem installExtension_ok (s : MgrState) (id : String)
    (c : ExtClass) (hcc : (c.hasHtdocs && c.copyFails) = false)
    (hmf : c.migrationFails = false) (j : String) :
    (installExtension s id c).err = none ∧
    alookup (installExtension s id c).s.classes j =
      (if id = j
       then (alookup s.classes j).map (fun c' =>
         { c' with registration :=
             { c'.registration with installed := true } })
       else alookup s.classes j) := by
  by_cases hfs : id ∈ s.fsAssets <;>
  by_cases hh : c.hasHtdocs = true <;>
  by_cases hcf : c.copyFails = true <;>
  simp_all <;>
  constructor <;>
  simp [installExtension, hfs, hh, hcf, hmf, setRegistration,
        addToInstalledApps_classes, removeFromInstalledApps_classes,
        alookup_aupd] <;>
  by_cases hij : id = j <;>
  cases hl : alookup s.classes j <;>
  simp [hij, hl]

/-! ## Behaviour of `_init_extension` -/

/-- When the class is known and no live instance exists,
`_init_extension` appends the freshly constructed instance and its
hooks, flips the info flags, and ends by sending
`extension_initialized`. -/
theorem initExtension_ok (s : MgrState) (id : String) (c : ExtClass)
    (hcls : alookup s.classes id = some c)
    (hins : amem s.instances id = false) :
    (initExtension s id).err = none ∧
    (initExtension s id).s.instances =
      s.instances ++
        [(id, ⟨mkHooks id c.hookSpecs,
               settingsLoad [] c.registration.settingsBlob,
               c.is_configurable⟩)] ∧
    (initExtension s id).s.hookRegistry =
      s.hookRegistry ++ mkHooks id c.hookSpecs ∧
    (∀ j, alookup (initExtension s id).s.classes j =
      (if id = j
       then some { c with infoInstalled := c.registration.installed,
                          infoEnabled := true }
       else alookup s.classes j)) ∧
    (∃ pre, (initExtension s id).evs =
      pre ++ [Event.templatetagsReset, Event.initialized id]) := by
  refine ⟨?_, ?_, ?_, ?_, ?_⟩
  · by_cases hconf : c.is_configurable = true <;>
    simp [initExtension, hcls, hins, hconf, addToInstalledApps_instances]
  · by_cases hconf : c.is_configurable = true <;>
    simp [initExtension, hcls, hins, hconf, addToInstalledApps_instances]
  · by_cases hconf : c.is_configurable = true <;>
    simp [initExtension, hcls, hins, hconf, addToInstalledApps_hookRegistry]
  · intro j
    by_cases hij : id = j
    · subst hij
      by_cases hconf : c.is_configurable = true <;>
      simp [initExtension, hcls, hins, hconf, addToInstalledApps_classes,
            alookup_aupd]
    · by_cases hconf : c.is_configurable = true <;>
      simp [initExtension, hcls, hins, hconf, addToInstalledApps_classes,
            alookup_aupd, hij]
  · by_cases hconf : c.is_configurable = true <;>
    by_cases ha : id ∈ s.installedApps <;>
    simp [initExtension, hcls, hins, hconf, addToInstalledApps, ha] <;>
    first
    | exact ⟨[Event.routesAdded id], rfl⟩
    | exact ⟨[Event.routesAdded id, Event.appAdded id], rfl⟩
    | exact ⟨[Event.appAdded id], rfl⟩

/-- `_init_extension` leaves the class dict keys unchanged. -/
theorem initExtension_classes_amem (s : MgrState) (id j : String) :
    amem (initExtension s id).s.classes j = amem s.classes j := by
  cases hcls : alookup s.classes id with
  | none => simp [initExtension, hcls]
  | some c =>
    by_cases hins : amem s.instances id <;>
    by_cases hconf : c.is_configurable = true <;>
    simp [initExtension, hcls, hins, hconf, amem_aupd,
          addToInstalledApps_classes]

/-! ## Behaviour of `_uninit_extension` and the disable tail -/

/-- When a live instance exists, `_uninit_extension` drains its hooks
from the registry, drops the instance, clears `info.enabled` and ends
with the `extension_uninitialized` signal. -/
theorem uninitExtension_ok (s : MgrState) (id : String) (inst : InstState)
    (hinst : alookup s.instances id = some inst) :
    (∀ j, alookup (uninitExtension s id).1.instances j =
       (if j = id then none else alookup s.instances j)) ∧
    (∀ j, alookup (uninitExtension s id).1.classes j =
       (if id = j
        then (alookup s.classes j).map
               (fun c => { c with infoEnabled := false })
        else alookup s.classes j)) ∧
    (uninitExtension s id).1.hookRegistry =
      inst.hooks.foldl (fun reg h => reg.erase h) s.hookRegistry ∧
    (∃ pre, (uninitExtension s id).2 =
       pre ++ [Event.templatetagsReset, Event.uninitialized id]) := by
  refine ⟨?_, ?_, ?_, ?_⟩
  · intro j
    by_cases hadmin : inst.hasAdminUrls = true <;>
    by_cases happ : id ∈ s.installedApps <;>
    simp [uninitExtension, hinst, hadmin, happ, removeFromInstalledApps,
          alookup_adel]
  · intro j
    by_cases hij : id = j
    · subst hij
      by_cases hadmin : inst.hasAdminUrls = true <;>
      by_cases happ : id ∈ s.installedApps <;>
      simp [uninitExtension, hinst, hadmin, happ, removeFromInstalledApps,
            alookup_aupd]
    · by_cases hadmin : inst.hasAdminUrls = true <;>
      by_cases happ : id ∈ s.installedApps <;>
      simp [uninitExtension, hinst, hadmin, happ, removeFromInstalledApps,
            alookup_aupd, hij]
  · by_cases hadmin : inst.hasAdminUrls = true <;>
    by_cases happ : id ∈ s.installedApps <;>
    simp [uninitExtension, hinst, hadmin, happ, removeFromInstalledApps]
  · by_cases hadmin : inst.hasAdminUrls = true
    · by_cases happ : id ∈ s.installedApps
      · exact ⟨inst.hooks.map Event.hookRemoved ++
          [Event.routesRemoved id, Event.appRemoved id],
          by simp [uninitExtension, hinst, hadmin, happ,
                   removeFromInstalledApps]⟩
      · exact ⟨inst.hooks.map Event.hookRemoved ++ [Event.routesRemoved id],
          by simp [uninitExtension, hinst, hadmin, happ,
                   removeFromInstalledApps]⟩
    · by_cases happ : id ∈ s.installedApps
      · exact ⟨inst.hooks.map Event.hookRemoved ++ [Event.appRemoved id],
          by simp [uninitExtension, hinst, hadmin, happ,
                   removeFromInstalledApps]⟩
      · exact ⟨inst.hooks.map Event.hookRemoved,
          by simp [uninitExtension, hinst, hadmin, happ,
                   removeFromInstalledApps]⟩

/-- The disable tail, unfolded (structure eta for pairs). -/
theorem disableFinish_fst (s : MgrState) (id : String) :
    (disableFinish s id).1 =
      setRegistration (uninitExtension (uninstallExtension s id).1 id).1 id
        (fun reg => { reg with enabled := false }) := rfl

/-- The disable tail's event trace, unfolded. -/
theorem disableFinish_snd (s : MgrState) (id : String) :
    (disableFinish s id).2 =
      (uninstallExtension s id).2 ++
        (uninitExtension (uninstallExtension s id).1 id).2 ++
        [Event.registrationSaved id] := rfl

/-- Combined behaviour of the disable tail for an enabled, known id:
the live instance is dropped, the class row keeps everything except
`info.enabled` and `registration.enabled` (both cleared), and the event
trace is: optional asset removal first, the uninitialized signal after
everything else in uninit, the registration save last. -/
theorem disableFinish_ok (s : MgrState) (id : String) (c : ExtClass)
    (inst : InstState)
    (hinst : alookup s.instances id = some inst)
    (hcls : alookup s.classes id = some c) :
    (∀ j, alookup (disableFinish s id).1.instances j =
       (if j = id then none else alookup s.instances j)) ∧
    (∀ j, alookup (disableFinish s id).1.classes j =
       (if id = j
        then some { c with
                    infoEnabled := false,
                    registration := { c.registration with enabled := false } }
        else alookup s.classes j)) ∧
    (∃ mid, (disableFinish s id).2 =
       (if id ∈ s.fsAssets then [Event.assetRemoved id] else []) ++ mid ++
       [Event.templatetagsReset, Event.uninitialized id,
        Event.registrationSaved id]) := by
  have hinst1 : alookup (uninstallExtension s id).1.instances id
      = some inst := by rw [uninstallExtension_instances, hinst]
  obtain ⟨hI, hC, _, hE⟩ :=
    uninitExtension_ok (uninstallExtension s id).1 id inst hinst1
  refine ⟨?_, ?_, ?_⟩
  · intro j
    rw [disableFinish_fst]
    show alookup (setRegistration _ id _).instances j = _
    rw [(setRegistration_frame _ id _).1, hI j, uninstallExtension_instances]
  · intro j
    rw [disableFinish_fst, alookup_setRegistration, hC j,
        uninstallExtension_classes]
    by_cases hij : id = j
    · subst hij
      simp [hcls]
    · simp [hij]
  · obtain ⟨pre, hpre⟩ := hE
    refine ⟨pre, ?_⟩
    rw [disableFinish_snd, hpre]
    by_cases hfs : id ∈ s.fsAssets <;>
    simp [uninstallExtension, hfs]

/-- `disable_extension` on an enabled, known id with no dependents:
no error, the instance is dropped, `enabled` is cleared (and saved)
while everything else in the class row outside `info.enabled` is kept,
and the events run uninstall-first, then uninit (ending with the
uninitialized signal), then the registration save. -/
theorem disableExt_noDeps (fuel : Nat) (s : MgrState) (id : String)
    (c : ExtClass) (inst : InstState)
    (hinst : alookup s.instances id = some inst)
    (hcls : alookup s.classes id = some c)
    (hdeps : getDependentExtensions s id = []) :
    disableExt (fuel + 1) s id =
      ⟨(disableFinish s id).1, (disableFinish s id).2, none⟩ := by
  rw [disableExt]
  have hmem : amem s.instances id = true := by simp [amem, hinst]
  simp only [hmem, if_true, hcls, hdeps]
  rfl

/-! ## Generic loop / recursion preservation -/

/-- A state projection preserved by every step of a `stepLoop` is
preserved by the whole loop. -/
theorem stepLoop_preserves {beta : Type} (g : MgrState → beta)
    (step : MgrState → String → StepRes)
    (hstep : ∀ s rid, g (step s rid).s = g s) :
    ∀ s ids, g (stepLoop step s ids).s = g s := by
  intro s ids
  induction ids generalizing s with
  | nil => rfl
  | cons rid rest ih =>
    rw [stepLoop]
    cases h : (step s rid).err <;> simp [h, ih, hstep]

/-- `enable_extension` never adds or removes keys of the class dict. -/
theorem enableExt_classes_amem (fuel : Nat) :
    ∀ s id j, amem (enableExt fuel s id).s.classes j = amem s.classes j := by
  induction fuel with
  | zero => intro s id j; rfl
  | succ fuel ih =>
    intro s id j
    rw [enableExt]
    by_cases hins : amem s.instances id
    · simp [hins]
    · cases hcls : alookup s.classes id with
      | none => simp [hins, hcls]
      | some c =>
        simp only [hins, hcls, Bool.false_eq_true, if_false]
        have hloop :
            amem (stepLoop
              (fun s' rid =>
                let er := enableExt fuel s' rid
                ⟨er.s, er.evs, er.err⟩) s c.requirements).s.classes j
              = amem s.classes j :=
          stepLoop_preserves (fun st => amem st.classes j) _
            (fun s' rid => ih s' rid j) s c.requirements
        cases hr : (stepLoop
            (fun s' rid =>
              let er := enableExt fuel s' rid
              ⟨er.s, er.evs, er.err⟩) s c.requirements).err with
        | some e => simp [hr, hloop]
        | none =>
          rw [← hloop]
          generalize (stepLoop
            (fun s' rid =>
              let er := enableExt fuel s' rid
              ⟨er.s, er.evs, er.err⟩) s c.requirements) = r at hr ⊢
          cases hir : (installExtension r.s id c).err with
          | some e =>
            cases e <;>
            simp [hr, hir, installExtension_classes_amem]
          | none =>
            have h2 : amem (installExtension r.s id c).s.classes j
                = amem r.s.classes j := installExtension_classes_amem _ _ _ _
            rw [← h2, ← amem_aupd _ id j
              (fun cl => { cl with registration :=
                { cl.registration with enabled := true } })]
            cases hie : (initExtension (setRegistration
                (installExtension r.s id c).s id
                (fun reg => { reg with enabled := true })) id).err with
            | some e =>
              simp [hr, hir, hie, initExtension_classes_amem, setRegistration,
                    amem_aupd]
            | none =>
              simp [hr, hir, hie, initExtension_classes_amem, setRegistration,
                    amem_aupd]

/-! ## Behaviour of a successful enable -/

theorem alookup_append_single {α : Type} (l : List (String × α))
    (id j : String) (v : α) (hnone : alookup l id = none) :
    alookup (l ++ [(id, v)]) j = if j = id then some v else alookup l j := by
  rw [alookup_append]
  by_cases hj : j = id
  · subst hj
    rw [hnone]
    simp [alookup]
  · cases h : alookup l j <;> simp [alookup, hj, h, Ne.symm hj]

theorem amem_false_iff {α : Type} (l : List (String × α)) (k : String) :
    amem l k = false ↔ alookup l k = none := by
  rw [amem]
  cases alookup l k <;> simp

/-- The state after the install/save/init tail of a successful
`enable_extension` run, starting from the state `sr` the requirements
loop left behind. -/
def enableFinishState (sr : MgrState) (id : String) (c : ExtClass) :
    MgrState :=
  (initExtension (setRegistration (installExtension sr id c).s id
    (fun reg => { reg with enabled := true })) id).s

/-- The events of the install/save/init tail of a successful
`enable_extension` run. -/
def enableFinishEvs (sr : MgrState) (id : String) (c : ExtClass) :
    List Event :=
  (installExtension sr id c).evs ++ [Event.registrationSaved id] ++
    (initExtension (setRegistration (installExtension sr id c).s id
      (fun reg => { reg with enabled := true })) id).evs

/-- A successful `enable_extension` run, dissected: once the
requirements loop has returned normally (leaving state `sr` where `id`
is still not live and its class row holds `cr`), and `id`'s install
side effects do not fail, the call installs (persisting
`installed=true`), saves `enabled=true`, constructs and registers the
live instance and ends with the `extension_initialized` signal,
returning the instance. -/
theorem enableExt_afterReqs (fuel : Nat) (s sr : MgrState) (id : String)
    (c cr : ExtClass) (evsr : List Event)
    (hins : amem s.instances id = false)
    (hcls : alookup s.classes id = some c)
    (hloop : stepLoop (fun s' rid =>
        let er := enableExt fuel s' rid
        ⟨er.s, er.evs, er.err⟩) s c.requirements = ⟨sr, evsr, none⟩)
    (hinsr : amem sr.instances id = false)
    (hclsr : alookup sr.classes id = some cr)
    (hcc : (c.hasHtdocs && c.copyFails) = false)
    (hmf : c.migrationFails = false) :
    enableExt (fuel + 1) s id =
      ⟨enableFinishState sr id c,
       evsr ++ (installExtension sr id c).evs ++
         [Event.registrationSaved id] ++
         (initExtension (setRegistration (installExtension sr id c).s id
           (fun reg => { reg with enabled := true })) id).evs,
       none, some id⟩ ∧
    (∀ j, alookup (enableFinishState sr id c).instances j =
       (if j = id
        then some ⟨mkHooks id cr.hookSpecs,
                   settingsLoad [] cr.registration.settingsBlob,
                   cr.is_configurable⟩
        else alookup sr.instances j)) ∧
    (∀ j, alookup (enableFinishState sr id c).classes j =
       (if id = j
        then some { cr with
                    registration :=
                      ⟨true, true, cr.registration.settingsBlob⟩,
                    infoEnabled := true, infoInstalled := true }
        else alookup sr.classes j)) ∧
    (∃ pre, (initExtension (setRegistration (installExtension sr id c).s id
        (fun reg => { reg with enabled := true })) id).evs =
      pre ++ [Event.templatetagsReset, Event.initialized id]) := by
  have hierr := (installExtension_ok sr id c hcc hmf id).1
  have hcls1 : ∀ j, alookup (setRegistration (installExtension sr id c).s
      id (fun reg => { reg with enabled := true })).classes j =
      (if id = j
       then some { cr with registration :=
         { enabled := true, installed := true,
           settingsBlob := cr.registration.settingsBlob } }
       else alookup sr.classes j) := by
    intro j
    rw [alookup_setRegistration, (installExtension_ok sr id c hcc hmf j).2]
    by_cases hij : id = j
    · subst hij
      simp [hclsr]
    · rw [if_neg hij, if_neg hij, if_neg hij]
  have hins1 : amem (setRegistration (installExtension sr id c).s id
      (fun reg => { reg with enabled := true })).instances id = false := by
    show amem (installExtension sr id c).s.instances id = false
    rw [installExtension_instances]
    exact hinsr
  obtain ⟨hie, hieInst, hieHooks, hieCls, hieEvs⟩ :=
    initExtension_ok _ id _ (by rw [hcls1 id, if_pos rfl]) hins1
  refine ⟨?_, ?_, ?_, hieEvs⟩
  · rw [enableExt]
    simp only [hins, Bool.false_eq_true, if_false, hcls]
    rw [hloop]
    simp only [hierr, hie]
    rfl
  · intro j
    rw [show (enableFinishState sr id c).instances =
        (initExtension (setRegistration (installExtension sr id c).s id
          (fun reg => { reg with enabled := true })) id).s.instances
        from rfl, hieInst]
    have hsr : (setRegistration (installExtension sr id c).s id
        (fun reg => { reg with enabled := true })).instances
        = sr.instances := by
      show (installExtension sr id c).s.instances = sr.instances
      exact installExtension_instances sr id c
    rw [hsr, alookup_append_single _ id j _
      ((amem_false_iff _ _).mp hinsr)]
  · intro j
    rw [show (enableFinishState sr id c).classes =
        (initExtension (setRegistration (installExtension sr id c).s id
          (fun reg => { reg with enabled := true })) id).s.classes
        from rfl, hieCls j]
    by_cases hij : id = j
    · rw [if_pos hij, if_pos hij]
    · rw [if_neg hij, if_neg hij, hcls1 j, if_neg hij]

/-! ## Claim C9: Settings.load semantics -/

/-- C9 (corrected claim): `Settings.load` does not *replace* the
in-memory mapping — it merges the persisted blob into it with
`dict.update` semantics (a key present in the blob gets the blob's
value, any other in-memory key keeps its value), and a corrupt blob
(whose deserialization raises `ValueError`) leaves the in-memory mapping
unchanged, with `load` returning normally in every case. -/
theorem settingsLoad_merges_and_fails_soft :
    (∀ mem, settingsLoad mem (Except.error ()) = mem) ∧
    (∀ mem kvs k,
      alookup (settingsLoad mem (Except.ok kvs)) k =
        match alookup (dictUpdate [] kvs) k with
        | some v => some v
        | none => alookup mem k) := by
  refine ⟨fun mem => rfl, fun mem kvs k => ?_⟩
  exact alookup_dictUpdate kvs mem k

/-- C9 counterexample: with key `a` in memory and only key `b` in the
persisted blob, `Settings.load` keeps `a` — the claim's "replaces the
in-memory contents with the registration record's persisted blob"
(formalized as `settingsLoadSpec`) is false. -/
theorem settingsLoad_replace_counterexample :
    settingsLoad [("a", 1)] (Except.ok [("b", 2)]) ≠
      settingsLoadSpec [("a", 1)] (Except.ok [("b", 2)]) := by
  decide

/-! ## Claim C7: unknown ids -/

/-- The empty manager state: nothing discovered, nothing enabled. -/
def emptyMgr : MgrState :=
  { classes := [], instances := [], hookRegistry := [], adminUrls := [],
    installedApps := [], fsAssets := [] }

/-- C7 (corrected claim): for an id that was never discovered,
`enable_extension` raises `InvalidExtensionError`, but
`disable_extension` returns *silently* as a no-op — its
`extension_id not in self._extension_instances` early return runs before
the known-class check, so no error is reported. -/
theorem unknown_id_enable_raises_disable_silent (fuel : Nat) (s : MgrState)
    (id : String) (hcls : alookup s.classes id = none)
    (hins : alookup s.instances id = none) :
    enableExt (fuel + 1) s id =
      ⟨s, [], some (PyError.invalidExtensionError id), none⟩ ∧
    disableExt (fuel + 1) s id = ⟨s, [], none⟩ := by
  constructor
  · rw [enableExt]
    simp [amem, hcls, hins]
  · rw [disableExt]
    simp [amem, hins]

/-- Witness for `unknown_id_enable_raises_disable_silent` at the empty
manager and id `X`. -/
theorem unknown_id_enable_raises_disable_silent_witness :
    enableExt 1 emptyMgr "X" =
      ⟨emptyMgr, [], some (PyError.invalidExtensionError "X"), none⟩ ∧
    disableExt 1 emptyMgr "X" = ⟨emptyMgr, [], none⟩ :=
  unknown_id_enable_raises_disable_silent 0 emptyMgr "X" rfl rfl

/-- C7 counterexample: `disable_extension` on the never-discovered id
`X` reports no error at all (the claim says it fails with the
`UnknownExtension`/`InvalidExtension` error). -/
theorem disable_unknown_id_silent_counterexample :
    (disableExt 1 emptyMgr "X").err = none := by
  decide

/-! ## Concrete scenario states -/

/-- A plain extension class: no requirements, not configurable, ships an
htdocs tree, installs cleanly, constructs one `nav` hook, starts
unregistered. -/
def extSimple : ExtClass :=
  { requirements := [], is_configurable := false, hasHtdocs := true,
    copyFails := false, migrationFails := false, hookSpecs := [("nav", 0)],
    registration := ⟨false, false, Except.ok []⟩,
    infoEnabled := false, infoInstalled := false, infoRequirements := [] }

/-- An extension class that requires `A`. -/
def extDep : ExtClass :=
  { extSimple with requirements := ["A"], infoRequirements := ["A"],
                   hookSpecs := [("nav", 1)] }

/-- An extension class whose schema migration fails. -/
def extMig : ExtClass := { extSimple with migrationFails := true }

/-- An extension class whose htdocs copy fails. -/
def extCopy : ExtClass := { extSimple with copyFails := true }

/-- Manager with discovered extensions `A` (standalone) and `B`
(requiring `A`), neither enabled. -/
def sAB : MgrState :=
  { classes := [("A", extSimple), ("B", extDep)], instances := [],
    hookRegistry := [], adminUrls := [], installedApps := [], fsAssets := [] }

/-- Manager with the failing-migration extension `M` discovered. -/
def sMig : MgrState :=
  { classes := [("M", extMig)], instances := [], hookRegistry := [],
    adminUrls := [], installedApps := [], fsAssets := [] }

/-- Manager with the failing-copy extension `C` discovered. -/
def sCopy : MgrState :=
  { classes := [("C", extCopy)], instances := [], hookRegistry := [],
    adminUrls := [], installedApps := [], fsAssets := [] }

/-! ## Claim C2: enable is idempotent -/

/-- A successful `enable_extension` returns the enabled id and leaves a
live instance registered for it. -/
theorem enableExt_ret_some (fuel : Nat) (s : MgrState) (id rid : String)
    (h : (enableExt fuel s id).ret = some rid) :
    rid = id ∧ amem (enableExt fuel s id).s.instances id = true := by
  cases fuel with
  | zero => simp [enableExt] at h
  | succ fuel =>
    rw [enableExt] at h ⊢
    by_cases hins : amem s.instances id
    · simp [hins] at h
    · cases hcls : alookup s.classes id with
      | none => simp [hins, hcls] at h
      | some c =>
        simp only [hins, hcls, Bool.false_eq_true, if_false] at h ⊢
        generalize hrdef : (stepLoop
          (fun s' rid' =>
            let er := enableExt fuel s' rid'
            ⟨er.s, er.evs, er.err⟩) s c.requirements) = r at h ⊢
        have hrcls : amem r.s.classes id = true := by
          rw [← hrdef]
          rw [stepLoop_preserves (fun st => amem st.classes id) _
            (fun s' rid' => enableExt_classes_amem fuel s' rid' id)
            s c.requirements]
          simp [amem, hcls]
        generalize her : r.err = rerr at h ⊢
        cases rerr with
        | some e => simp at h
        | none =>
          generalize hier : (installExtension r.s id c).err = ierr at h ⊢
          cases ierr with
          | some e => cases e <;> simp at h
          | none =>
            generalize hs1 : setRegistration (installExtension r.s id c).s
              id (fun reg => { reg with enabled := true }) = s1 at h ⊢
            have hkey : amem s1.classes id = true := by
              have h2 : amem (setRegistration (installExtension r.s id c).s id
                  (fun reg => { reg with enabled := true })).classes id
                  = amem (installExtension r.s id c).s.classes id := by
                have h3 := amem_aupd (installExtension r.s id c).s.classes id
                  id (fun cc => { cc with registration :=
                    { cc.registration with enabled := true } })
                exact h3
              rw [← hs1, h2, installExtension_classes_amem, hrcls]
            obtain ⟨c', hc'⟩ := Option.isSome_iff_exists.mp hkey
            generalize hiee : (initExtension s1 id).err = ieerr at h ⊢
            cases ieerr with
            | some e => simp at h
            | none =>
              have hii : amem s1.instances id = false := by
                cases hx : amem s1.instances id with
                | false => rfl
                | true =>
                  have hassert : (initExtension s1 id).err
                      = some PyError.assertionError := by
                    rw [initExtension, hc']
                    simp [hx]
                  rw [hassert] at hiee
                  exact absurd hiee (by simp)
              obtain ⟨_, hinst, _, _, _⟩ := initExtension_ok s1 id c' hc' hii
              have hval : some id = some rid := h
              refine ⟨(Option.some.inj hval).symm, ?_⟩
              show amem (initExtension s1 id).s.instances id = true
              rw [hinst, amem_append]
              simp [amem, alookup]

/-- C2 (corrected): after a successful `enable_extension(id)` (which
returns the new live instance), a second `enable_extension(id)` is a
pure no-op — the state is unchanged, no events occur (so no duplicate
route registration and no duplicate install side effects) — but it
returns `None` via the bare early `return`, not the live instance the
first call returned. -/
theorem enable_twice_noop (fuel1 fuel2 : Nat) (s : MgrState)
    (id rid : String) (h : (enableExt fuel1 s id).ret = some rid) :
    rid = id ∧
    enableExt (fuel2 + 1) (enableExt fuel1 s id).s id =
      ⟨(enableExt fuel1 s id).s, [], none, none⟩ := by
  obtain ⟨hid, hmem⟩ := enableExt_ret_some fuel1 s id rid h
  refine ⟨hid, ?_⟩
  rw [enableExt]
  simp [hmem]

/-- Witness for `enable_twice_noop`: enabling `A`, then enabling `A`
again, with the first call returning the instance. -/
theorem enable_twice_noop_witness :
    "A" = "A" ∧
    enableExt 1 (enableExt 2 sAB "A").s "A" =
      ⟨(enableExt 2 sAB "A").s, [], none, none⟩ :=
  enable_twice_noop 2 0 sAB "A" "A" (by decide)

/-- C2 counterexample: the first `enable_extension("A")` returns the
live instance, but the second returns `None` — not the same live
instance, contradicting the claim's return-value clause. -/
theorem enable_twice_ret_counterexample :
    (enableExt 2 sAB "A").ret = some "A" ∧
    (enableExt 1 (enableExt 2 sAB "A").s "A").ret = none := by
  constructor <;> decide

/-! ## Claim C1: failing install side effects -/

/-- C1 (corrected): for a discovered, not-enabled id with no
requirements, (i) if the schema migration fails, `enable_extension`
raises `EnablingExtensionError` wrapping the `InstallExtensionError`,
no live instance exists, no `extension_initialized` signal was sent and
`enabled` was not set — but the registration's `installed` flag has
already been set to `true` and saved (not left `false`); (ii) if the
asset copy fails, the raised error is the *unwrapped* `OSError` (not an
`EnablingExtensionError`), with the registration row fully untouched,
no live instance and no signal. -/
theorem enable_install_failure_states (fuel : Nat) (s : MgrState)
    (id : String) (c : ExtClass)
    (hins : amem s.instances id = false)
    (hcls : alookup s.classes id = some c)
    (hreq : c.requirements = []) :
    ((c.hasHtdocs && c.copyFails) = false → c.migrationFails = true →
      (enableExt (fuel + 1) s id).err = some PyError.enablingExtensionError ∧
      (enableExt (fuel + 1) s id).ret = none ∧
      alookup (enableExt (fuel + 1) s id).s.classes id =
        some { c with registration :=
          { c.registration with installed := true } } ∧
      (enableExt (fuel + 1) s id).s.instances = s.instances ∧
      (∀ j, Event.initialized j ∉ (enableExt (fuel + 1) s id).evs)) ∧
    (c.hasHtdocs = true → c.copyFails = true →
      (enableExt (fuel + 1) s id).err = some PyError.osError ∧
      (enableExt (fuel + 1) s id).ret = none ∧
      alookup (enableExt (fuel + 1) s id).s.classes id = some c ∧
      (enableExt (fuel + 1) s id).s.instances = s.instances ∧
      (∀ j, Event.initialized j ∉ (enableExt (fuel + 1) s id).evs)) := by
  have hloop : stepLoop (fun s' rid' =>
      let er := enableExt fuel s' rid'
      ⟨er.s, er.evs, er.err⟩) s c.requirements = ⟨s, [], none⟩ := by
    rw [hreq]
    rfl
  refine ⟨fun hcc hmf => ?_, fun hh hcf => ?_⟩
  · obtain ⟨hierr, hicls⟩ := installExtension_migfail s id c hcc hmf id
    have heq : enableExt (fuel + 1) s id =
        ⟨(installExtension s id c).s, (installExtension s id c).evs,
         some PyError.enablingExtensionError, none⟩ := by
      rw [enableExt]
      simp only [hins, Bool.false_eq_true, if_false, hcls]
      rw [hloop]
      simp only [hierr]
      simp
    refine ⟨by rw [heq], by rw [heq], ?_, ?_, ?_⟩
    · rw [heq]
      show alookup (installExtension s id c).s.classes id = _
      rw [hicls]
      simp [hcls]
    · rw [heq]
      exact installExtension_instances s id c
    · intro j
      rw [heq]
      exact installExtension_no_init_event s id c j
  · obtain ⟨hierr, hicls⟩ := installExtension_copyfail s id c hh hcf
    have heq : enableExt (fuel + 1) s id =
        ⟨(installExtension s id c).s, (installExtension s id c).evs,
         some PyError.osError, none⟩ := by
      rw [enableExt]
      simp only [hins, Bool.false_eq_true, if_false, hcls]
      rw [hloop]
      simp only [hierr]
      simp
    refine ⟨by rw [heq], by rw [heq], ?_, ?_, ?_⟩
    · rw [heq]
      show alookup (installExtension s id c).s.classes id = _
      rw [hicls, hcls]
    · rw [heq]
      exact installExtension_instances s id c
    · intro j
      rw [heq]
      exact installExtension_no_init_event s id c j

/-- Witness for `enable_install_failure_states`: the failing-migration
extension `M`. -/
theorem enable_install_failure_states_witness :
    (enableExt 1 sMig "M").err = some PyError.enablingExtensionError ∧
    (enableExt 1 sMig "M").s.instances = sMig.instances := by
  have h := (enable_install_failure_states 0 sMig "M" extMig
    (by decide) (by decide) (by decide)).1 (by decide) (by decide)
  exact ⟨h.1, h.2.2.2.1⟩

/-- C1 counterexample: after the failed migration of `M`,
`enable_extension` does raise `EnablingExtensionError`, but the
registration row records `installed = true` — not the `installed=false`
Registered state the claim asserts; and for the failing asset copy of
`C` the escaping error is a plain `OSError`, not an
`EnablingExtensionError`. -/
theorem enable_install_failure_counterexample :
    ((enableExt 1 sMig "M").err = some PyError.enablingExtensionError ∧
     (alookup (enableExt 1 sMig "M").s.classes "M").map
       (fun c => c.registration.installed) = some true) ∧
    (enableExt 1 sCopy "C").err = some PyError.osError := by
  refine ⟨⟨?_, ?_⟩, ?_⟩ <;> decide

/-! ## Claims C6, C8, C4: disable behaviour -/

/-- A live instance for extension `E`. -/
def instE : InstState := ⟨mkHooks "E" [("nav", 0)], [], false⟩

/-- The class of `E` in its enabled, installed state. -/
def extE : ExtClass :=
  { extSimple with registration := ⟨true, true, Except.ok []⟩,
                   infoEnabled := true, infoInstalled := true }

/-- A manager with `E` enabled, its hooks registered, its app installed
and its asset tree present. -/
def sEn : MgrState :=
  { classes := [("E", extE)], instances := [("E", instE)],
    hookRegistry := mkHooks "E" [("nav", 0)], adminUrls := [],
    installedApps := ["E"], fsAssets := ["E"] }

/-- C6 (corrected): `disable_extension` performs the *uninstall* (asset
tree removal) first, then uninitializes (hook shutdown, route/app
removal, cache reset, `extension_uninitialized`, instance drop), and
persists `enabled=false` last — the spec's uninit-before-uninstall
order is reversed in the code (base.py:350-351 calls
`_uninstall_extension` before `_uninit_extension`). -/
theorem disable_order_uninstall_before_uninit (fuel : Nat) (s : MgrState)
    (id : String) (c : ExtClass) (inst : InstState)
    (hinst : alookup s.instances id = some inst)
    (hcls : alookup s.classes id = some c)
    (hdeps : getDependentExtensions s id = [])
    (hfs : id ∈ s.fsAssets) :
    (disableExt (fuel + 1) s id).err = none ∧
    (∃ mid, (disableExt (fuel + 1) s id).evs =
       Event.assetRemoved id :: mid ++
       [Event.templatetagsReset, Event.uninitialized id,
        Event.registrationSaved id]) ∧
    alookup (disableExt (fuel + 1) s id).s.instances id = none ∧
    alookup (disableExt (fuel + 1) s id).s.classes id =
      some { c with
             infoEnabled := false,
             registration := { c.registration with enabled := false } } := by
  rw [disableExt_noDeps fuel s id c inst hinst hcls hdeps]
  obtain ⟨hI, hC, hE⟩ := disableFinish_ok s id c inst hinst hcls
  refine ⟨rfl, ?_, ?_, ?_⟩
  · obtain ⟨mid, hmid⟩ := hE
    refine ⟨mid, ?_⟩
    show (disableFinish s id).2 = _
    rw [hmid, if_pos hfs]
    simp
  · show alookup (disableFinish s id).1.instances id = none
    rw [hI id, if_pos rfl]
  · show alookup (disableFinish s id).1.classes id = _
    rw [hC id, if_pos rfl]

/-- Witness for `disable_order_uninstall_before_uninit` at the enabled
extension `E`. -/
theorem disable_order_uninstall_before_uninit_witness :
    (disableExt 1 sEn "E").err = none ∧
    (∃ mid, (disableExt 1 sEn "E").evs =
       Event.assetRemoved "E" :: mid ++
       [Event.templatetagsReset, Event.uninitialized "E",
        Event.registrationSaved "E"]) ∧
    alookup (disableExt 1 sEn "E").s.instances "E" = none ∧
    alookup (disableExt 1 sEn "E").s.classes "E" =
      some { extE with
             infoEnabled := false,
             registration :=
               { extE.registration with enabled := false } } :=
  disable_order_uninstall_before_uninit 0 sEn "E" extE instE
    (by decide) (by decide) (by decide) (by decide)

/-- C6 counterexample: disabling the enabled extension `E` emits the
asset-tree removal *before* the `extension_uninitialized` signal — the
claim's order (uninitialize first, only then remove the asset tree) is
false. -/
theorem disable_order_counterexample :
    Event.assetRemoved "E" ∈ (disableExt 1 sEn "E").evs ∧
    Event.uninitialized "E" ∈ (disableExt 1 sEn "E").evs ∧
    (disableExt 1 sEn "E").evs.indexOf (Event.assetRemoved "E") <
      (disableExt 1 sEn "E").evs.indexOf (Event.uninitialized "E") := by
  refine ⟨?_, ?_, ?_⟩ <;> decide

/-- `Option.map` over an `aupd` whose function preserves
`registration.installed` preserves the installed view. -/
theorem uninitExtension_installedMap (s : MgrState) (id j : String) :
    (alookup (uninitExtension s id).1.classes j).map
      (fun cc => cc.registration.installed) =
    (alookup s.classes j).map (fun cc => cc.registration.installed) := by
  cases hinst : alookup s.instances id with
  | none => simp [uninitExtension, hinst]
  | some inst =>
    rw [(uninitExtension_ok s id inst hinst).2.1 j]
    by_cases hij : id = j
    · rw [if_pos hij, Option.map_map]
      cases alookup s.classes j <;> rfl
    · rw [if_neg hij]

/-- The disable tail never changes any registration's `installed`. -/
theorem disableFinish_installedMap (s : MgrState) (id j : String) :
    (alookup (disableFinish s id).1.classes j).map
      (fun cc => cc.registration.installed) =
    (alookup s.classes j).map (fun cc => cc.registration.installed) := by
  rw [disableFinish_fst, alookup_setRegistration]
  have huni := uninitExtension_installedMap (uninstallExtension s id).1 id j
  rw [uninstallExtension_classes] at huni
  by_cases hij : id = j
  · rw [if_pos hij, Option.map_map, ← huni]
    cases alookup
      (uninitExtension (uninstallExtension s id).1 id).1.classes j <;> rfl
  · rw [if_neg hij]
    exact huni

/-- `disable_extension` (with any cascade) never changes any
registration's `installed` flag. -/
theorem disableExt_installed_frame (fuel : Nat) :
    ∀ s id j, (alookup (disableExt fuel s id).s.classes j).map
        (fun cc => cc.registration.installed) =
      (alookup s.classes j).map (fun cc => cc.registration.installed) := by
  induction fuel with
  | zero => intro s id j; rfl
  | succ fuel ih =>
    intro s id j
    rw [disableExt]
    by_cases hins : amem s.instances id
    · cases hcls : alookup s.classes id with
      | none => simp [hins, hcls]
      | some c =>
        simp only [hins, if_true, hcls]
        have hloop := stepLoop_preserves
          (fun st => (alookup st.classes j).map
            (fun cc => cc.registration.installed))
          (disableExt fuel) (fun s' rid => ih s' rid j) s
          (getDependentExtensions s id)
        generalize hdr : stepLoop (disableExt fuel) s
          (getDependentExtensions s id) = dr at hloop ⊢
        generalize herr : dr.err = derr
        cases derr with
        | some e => exact hloop
        | none =>
          show (alookup (disableFinish dr.s id).1.classes j).map
            (fun cc => cc.registration.installed) = _
          rw [disableFinish_installedMap, hloop]
    · simp [hins]

/-- C8 (confirmed): disabling an enabled, installed id never resets the
registration's `installed` flag — it stays `true` for the id itself
(and `installed` is untouched for every other id as well); only the
`enabled` flag is cleared. -/
theorem disable_keeps_installed (fuel : Nat) (s : MgrState) (id : String)
    (c : ExtClass) (inst : InstState)
    (hinst : alookup s.instances id = some inst)
    (hcls : alookup s.classes id = some c)
    (hinstalled : c.registration.installed = true) :
    (alookup (disableExt fuel s id).s.classes id).map
      (fun cc => cc.registration.installed) = some true ∧
    (∀ j, (alookup (disableExt fuel s id).s.classes j).map
      (fun cc => cc.registration.installed) =
      (alookup s.classes j).map (fun cc => cc.registration.installed)) ∧
    (getDependentExtensions s id = [] →
      (alookup (disableExt (fuel + 1) s id).s.classes id).map
        (fun cc => cc.registration.enabled) = some false) := by
  refine ⟨?_, fun j => disableExt_installed_frame fuel s id j, fun hdeps => ?_⟩
  · rw [disableExt_installed_frame, hcls]
    simp [hinstalled]
  · rw [disableExt_noDeps fuel s id c inst hinst hcls hdeps]
    show (alookup (disableFinish s id).1.classes id).map _ = _
    rw [(disableFinish_ok s id c inst hinst hcls).2.1 id, if_pos rfl]
    rfl

/-- Witness for `disable_keeps_installed` at the enabled extension `E`. -/
theorem disable_keeps_installed_witness :
    (alookup (disableExt 1 sEn "E").s.classes "E").map
      (fun cc => cc.registration.installed) = some true ∧
    (∀ j, (alookup (disableExt 1 sEn "E").s.classes j).map
      (fun cc => cc.registration.installed) =
      (alookup sEn.classes j).map (fun cc => cc.registration.installed)) ∧
    (getDependentExtensions sEn "E" = [] →
      (alookup (disableExt 2 sEn "E").s.classes "E").map
        (fun cc => cc.registration.enabled) = some false) :=
  disable_keeps_installed 1 sEn "E" extE instE (by decide) (by decide)
    (by decide)

/-! ## Claim C4: reverse-dependency cascade on disable -/

/-- Class of `A` in its enabled state (for the two-extension cascade
scenario). -/
def extAen : ExtClass :=
  { extSimple with registration := ⟨true, true, Except.ok []⟩,
                   infoEnabled := true, infoInstalled := true }

/-- Class of `B` (requires `A`) in its enabled state. -/
def extBen : ExtClass :=
  { extDep with registration := ⟨true, true, Except.ok []⟩,
                infoEnabled := true, infoInstalled := true }

/-- Live instances of `A` and `B`. -/
def instAen : InstState := ⟨mkHooks "A" [("nav", 0)], [], false⟩

/-- Live instance of `B`. -/
def instBen : InstState := ⟨mkHooks "B" [("nav", 1)], [], false⟩

/-- Manager with `A` and `B` both enabled, `B` depending on `A`. -/
def sABen : MgrState :=
  { classes := [("A", extAen), ("B", extBen)],
    instances := [("A", instAen), ("B", instBen)],
    hookRegistry := mkHooks "A" [("nav", 0)] ++ mkHooks "B" [("nav", 1)],
    adminUrls := [], installedApps := ["A", "B"], fsAssets := ["A", "B"] }

/-- C4 (confirmed, in the two-extension scenario the claim describes):
with `A` and `B` enabled and `B` the (only) extension depending on `A`,
`disable_extension(A)` first disables `B` (its `extension_uninitialized`
signal precedes `A`'s), and afterwards neither `A` nor `B` is enabled
and neither has a live instance. -/
theorem disable_cascades_dependents (fuel : Nat) (s : MgrState)
    (A B : String) (cA cB : ExtClass) (iA iB : InstState)
    (hAins : alookup s.instances A = some iA)
    (hBins : alookup s.instances B = some iB)
    (hAcls : alookup s.classes A = some cA)
    (hBcls : alookup s.classes B = some cB)
    (hAB : A ≠ B)
    (hdepsA : getDependentExtensions s A = [B])
    (hdepsB : getDependentExtensions s B = []) :
    (disableExt (fuel + 1 + 1) s A).err = none ∧
    alookup (disableExt (fuel + 1 + 1) s A).s.instances A = none ∧
    alookup (disableExt (fuel + 1 + 1) s A).s.instances B = none ∧
    (alookup (disableExt (fuel + 1 + 1) s A).s.classes A).map
      (fun cc => cc.registration.enabled) = some false ∧
    (alookup (disableExt (fuel + 1 + 1) s A).s.classes B).map
      (fun cc => cc.registration.enabled) = some false ∧
    (∃ l1 l2 l3, (disableExt (fuel + 1 + 1) s A).evs =
      l1 ++ [Event.uninitialized B] ++ l2 ++ [Event.uninitialized A] ++ l3) := by
  have hstepB : disableExt (fuel + 1) s B =
      ⟨(disableFinish s B).1, (disableFinish s B).2, none⟩ :=
    disableExt_noDeps fuel s B cB iB hBins hBcls hdepsB
  obtain ⟨hIB, hCB, hEB⟩ := disableFinish_ok s B cB iB hBins hBcls
  have hAins1 : alookup (disableFinish s B).1.instances A = some iA := by
    rw [hIB A, if_neg hAB, hAins]
  have hAcls1 : alookup (disableFinish s B).1.classes A = some cA := by
    rw [hCB A, if_neg (fun h => hAB h.symm), hAcls]
  obtain ⟨hIA, hCA, hEA⟩ :=
    disableFinish_ok (disableFinish s B).1 A cA iA hAins1 hAcls1
  have hloop : stepLoop (disableExt (fuel + 1)) s [B] =
      ⟨(disableFinish s B).1, (disableFinish s B).2 ++ [], none⟩ := by
    rw [stepLoop, hstepB]
    rfl
  have hmemA : amem s.instances A = true := by simp [amem, hAins]
  have heq : disableExt (fuel + 1 + 1) s A =
      ⟨(disableFinish (disableFinish s B).1 A).1,
       ((disableFinish s B).2 ++ []) ++
         (disableFinish (disableFinish s B).1 A).2, none⟩ := by
    rw [disableExt]
    simp only [hmemA, if_true, hAcls, hdepsA]
    rw [hloop]
  rw [heq]
  refine ⟨rfl, ?_, ?_, ?_, ?_, ?_⟩
  · show alookup (disableFinish (disableFinish s B).1 A).1.instances A = none
    rw [hIA A, if_pos rfl]
  · show alookup (disableFinish (disableFinish s B).1 A).1.instances B = none
    rw [hIA B, if_neg (fun h => hAB h.symm), hIB B, if_pos rfl]
  · show (alookup (disableFinish (disableFinish s B).1 A).1.classes A).map
      (fun cc => cc.registration.enabled) = some false
    rw [hCA A, if_pos rfl]
    rfl
  · show (alookup (disableFinish (disableFinish s B).1 A).1.classes B).map
      (fun cc => cc.registration.enabled) = some false
    rw [hCA B, if_neg hAB, hCB B, if_pos rfl]
    rfl
  · obtain ⟨midB, hmidB⟩ := hEB
    obtain ⟨midA, hmidA⟩ := hEA
    refine ⟨(if B ∈ s.fsAssets then [Event.assetRemoved B] else []) ++ midB ++
        [Event.templatetagsReset],
      [Event.registrationSaved B] ++
        (if A ∈ (disableFinish s B).1.fsAssets
         then [Event.assetRemoved A] else []) ++ midA ++
        [Event.templatetagsReset],
      [Event.registrationSaved A], ?_⟩
    show (disableFinish s B).2 ++ [] ++
      (disableFinish (disableFinish s B).1 A).2 = _
    rw [hmidB, hmidA]
    simp

/-- Witness for `disable_cascades_dependents` at the enabled `A`/`B`
pair. -/
theorem disable_cascades_dependents_witness :
    (disableExt 2 sABen "A").err = none ∧
    alookup (disableExt 2 sABen "A").s.instances "A" = none ∧
    alookup (disableExt 2 sABen "A").s.instances "B" = none ∧
    (alookup (disableExt 2 sABen "A").s.classes "A").map
      (fun cc => cc.registration.enabled) = some false ∧
    (alookup (disableExt 2 sABen "A").s.classes "B").map
      (fun cc => cc.registration.enabled) = some false ∧
    (∃ l1 l2 l3, (disableExt 2 sABen "A").evs =
      l1 ++ [Event.uninitialized "B"] ++ l2 ++
        [Event.uninitialized "A"] ++ l3) :=
  disable_cascades_dependents 0 sABen "A" "B" extAen extBen instAen instBen
    (by decide) (by decide) (by decide) (by decide) (by decide) (by decide)
    (by decide)

/-! ## Claim C3: requirements are enabled first -/

/-- C3 (confirmed): for discovered extensions `A` (no requirements) and
`B` (requiring `A`), neither enabled, with both installs succeeding,
`enable_extension(B)` enables `A` first: afterwards both have live
instances, and `A`'s `extension_initialized` signal strictly precedes
`B`'s in the event trace; `B`'s instance is returned. -/
theorem enable_enables_requirement_first (fuel : Nat) (s : MgrState)
    (A B : String) (cA cB : ExtClass)
    (hAins : amem s.instances A = false)
    (hBins : amem s.instances B = false)
    (hAcls : alookup s.classes A = some cA)
    (hBcls : alookup s.classes B = some cB)
    (hAB : A ≠ B)
    (hreqA : cA.requirements = [])
    (hreqB : cB.requirements = [A])
    (hccA : (cA.hasHtdocs && cA.copyFails) = false)
    (hmfA : cA.migrationFails = false)
    (hccB : (cB.hasHtdocs && cB.copyFails) = false)
    (hmfB : cB.migrationFails = false) :
    (enableExt (fuel + 1 + 1) s B).err = none ∧
    (enableExt (fuel + 1 + 1) s B).ret = some B ∧
    amem (enableExt (fuel + 1 + 1) s B).s.instances A = true ∧
    amem (enableExt (fuel + 1 + 1) s B).s.instances B = true ∧
    (∃ l1 l2, (enableExt (fuel + 1 + 1) s B).evs =
      l1 ++ [Event.initialized A] ++ l2 ++ [Event.initialized B]) := by
  obtain ⟨hAeq, hAInst, hACls, hAEvs⟩ :=
    enableExt_afterReqs fuel s s A cA cA [] hAins hAcls
      (by rw [hreqA]; rfl) hAins hAcls hccA hmfA
  have hBins1 : amem (enableFinishState s A cA).instances B = false := by
    rw [amem_false_iff, hAInst B, if_neg (fun h => hAB h.symm)]
    exact (amem_false_iff _ _).mp hBins
  have hBcls1 : alookup (enableFinishState s A cA).classes B = some cB := by
    rw [hACls B, if_neg hAB, hBcls]
  have hloopB : stepLoop (fun s' rid =>
      let er := enableExt (fuel + 1) s' rid
      ⟨er.s, er.evs, er.err⟩) s cB.requirements =
      ⟨enableFinishState s A cA,
       ([] ++ (installExtension s A cA).evs ++
        [Event.registrationSaved A] ++
        (initExtension (setRegistration (installExtension s A cA).s A
          (fun reg => { reg with enabled := true })) A).evs) ++ [],
       none⟩ := by
    rw [hreqB, stepLoop, hAeq]
    rfl
  obtain ⟨hBeq, hBInst, hBCls, hBEvs⟩ :=
    enableExt_afterReqs (fuel + 1) s (enableFinishState s A cA) B cB cB
      _ hBins hBcls hloopB hBins1 hBcls1 hccB hmfB
  rw [hBeq]
  refine ⟨rfl, rfl, ?_, ?_, ?_⟩
  · show amem (enableFinishState (enableFinishState s A cA) B
      cB).instances A = true
    rw [amem, hBInst A, if_neg hAB, hAInst A, if_pos rfl]
    rfl
  · show amem (enableFinishState (enableFinishState s A cA) B
      cB).instances B = true
    rw [amem, hBInst B, if_pos rfl]
    rfl
  · obtain ⟨preA, hpreA⟩ := hAEvs
    obtain ⟨preB, hpreB⟩ := hBEvs
    refine ⟨(installExtension s A cA).evs ++ [Event.registrationSaved A] ++
        preA ++ [Event.templatetagsReset],
      (installExtension (enableFinishState s A cA) B cB).evs ++
        [Event.registrationSaved B] ++ preB ++ [Event.templatetagsReset],
      ?_⟩
    show ([] ++ (installExtension s A cA).evs ++
        [Event.registrationSaved A] ++
        (initExtension (setRegistration (installExtension s A cA).s A
          (fun reg => { reg with enabled := true })) A).evs) ++ [] ++
        (installExtension (enableFinishState s A cA) B cB).evs ++
        [Event.registrationSaved B] ++
        (initExtension (setRegistration
          (installExtension (enableFinishState s A cA) B cB).s B
          (fun reg => { reg with enabled := true })) B).evs = _
    rw [hpreA, hpreB]
    simp

/-- Witness for `enable_enables_requirement_first` at the discovered
pair `A`, `B` of `sAB`. -/
theorem enable_enables_requirement_first_witness :
    (enableExt 2 sAB "B").err = none ∧
    (enableExt 2 sAB "B").ret = some "B" ∧
    amem (enableExt 2 sAB "B").s.instances "A" = true ∧
    amem (enableExt 2 sAB "B").s.instances "B" = true ∧
    (∃ l1 l2, (enableExt 2 sAB "B").evs =
      l1 ++ [Event.initialized "A"] ++ l2 ++ [Event.initialized "B"]) :=
  enable_enables_requirement_first 0 sAB "A" "B" extSimple extDep
    (by decide) (by decide) (by decide) (by decide) (by decide) (by decide)
    (by decide) (by decide) (by decide) (by decide) (by decide)

/-! ## Claim C5: repeated discovery pass (load) -/

/-- Live instance for extension `X`. -/
def instXen : InstState := ⟨mkHooks "X" [("nav", 0)], [], false⟩

/-- Live instance for extension `Y`. -/
def instYen : InstState := ⟨mkHooks "Y" [("nav", 1)], [], false⟩

/-- `X` enabled and `Y` known-but-disabled; the second discovery pass
will enumerate only `Y`. -/
def sX : MgrState :=
  { classes := [("X", extAen), ("Y", extSimple)],
    instances := [("X", instXen)],
    hookRegistry := mkHooks "X" [("nav", 0)], adminUrls := [],
    installedApps := ["X"], fsAssets := ["X"] }

/-- `X` and `Y` both enabled; the second discovery pass enumerates
nothing. -/
def sXY : MgrState :=
  { classes := [("X", extAen), ("Y", extAen)],
    instances := [("X", instXen), ("Y", instYen)],
    hookRegistry := mkHooks "X" [("nav", 0)] ++ mkHooks "Y" [("nav", 1)],
    adminUrls := [], installedApps := ["X", "Y"], fsAssets := ["X", "Y"] }

/-- C5 (code bug): on a repeated `load` whose enumeration no longer
contains a previously known id, the reconciliation loop `del`etes from
`self._extension_classes` *while iterating it with `iteritems()`*, so
CPython raises `RuntimeError("dictionary changed size during
iteration")` on the next iterator step.  The first stale id (`X`) is
disabled and dropped — and a subsequent enable of it does fail with
`InvalidExtensionError` — but `load` itself aborts with the
`RuntimeError`; with two stale enabled ids, the second (`Y`) is left
known *and still live* (a dangling instance), contradicting both the
claim and `load`'s own docstring. -/
theorem load_stale_id_runtimeerror :
    ((load 2 sX [("Y", extSimple)]).err =
       some PyError.runtimeErrorDictChanged ∧
     amem (load 2 sX [("Y", extSimple)]).s.classes "X" = false ∧
     amem (load 2 sX [("Y", extSimple)]).s.instances "X" = false ∧
     Event.uninitialized "X" ∈ (load 2 sX [("Y", extSimple)]).evs ∧
     (enableExt 1 (load 2 sX [("Y", extSimple)]).s "X").err =
       some (PyError.invalidExtensionError "X")) ∧
    ((load 2 sXY []).err = some PyError.runtimeErrorDictChanged ∧
     amem (load 2 sXY []).s.classes "Y" = true ∧
     amem (load 2 sXY []).s.instances "Y" = true) := by
  refine ⟨⟨?_, ?_, ?_, ?_, ?_⟩, ?_, ?_, ?_⟩ <;> decide

/-! ## Claim C10: hook ownership / registry invariant -/

theorem alookup_eq_none_iff {α : Type} (l : List (String × α))
    (k : String) : alookup l k = none ↔ k ∉ l.map Prod.fst := by
  induction l with
  | nil => simp [alookup]
  | cons p rest ih =>
    obtain ⟨a, b⟩ := p
    by_cases h : a = k
    · subst h
      simp [alookup]
    · rw [alookup_cons_neg a b rest k h, ih, List.map_cons]
      constructor
      · intro hk
        simp only [List.mem_cons]
        rintro (hh | hh)
        · exact h hh.symm
        · exact hk hh
      · intro hk hh
        exact hk (List.mem_cons_of_mem _ hh)

theorem alookup_mem {α : Type} (l : List (String × α)) (k : String)
    (v : α) (h : alookup l k = some v) : (k, v) ∈ l := by
  induction l with
  | nil => simp [alookup] at h
  | cons p rest ih =>
    obtain ⟨a, b⟩ := p
    by_cases hak : a = k
    · subst hak
      rw [alookup_cons_pos a b rest a rfl] at h
      simp [Option.some.inj h]
    · rw [alookup_cons_neg a b rest k hak] at h
      exact List.mem_cons_of_mem _ (ih h)

theorem amem_of_mem {α : Type} (l : List (String × α)) (p : String × α)
    (h : p ∈ l) : amem l p.1 = true := by
  rw [amem]
  cases halo : alookup l p.1 with
  | none =>
    exact absurd (List.mem_map_of_mem Prod.fst h)
      ((alookup_eq_none_iff l p.1).mp halo)
  | some v => rfl

theorem mkHooks_owner (id : String) (specs : List (String × Nat)) :
    ∀ h ∈ mkHooks id specs, h.owner = id := by
  intro h hh
  obtain ⟨p, _, hp⟩ := List.mem_map.mp hh
  rw [← hp]

theorem mkHooks_nodup (id : String) (specs : List (String × Nat))
    (h : specs.Nodup) : (mkHooks id specs).Nodup := by
  refine List.Nodup.map ?_ h
  intro p q hpq
  simpa [Hook.mk.injEq, Prod.ext_iff] using hpq

/-- Every hook in an instance's ownership set names that instance as
its owner. -/
def ownedOk (s : MgrState) : Prop :=
  ∀ p ∈ s.instances, ∀ h ∈ p.2.hooks, h.owner = p.1

/-- The live-instance dict has no duplicate ids. -/
def keysNodup (s : MgrState) : Prop :=
  (s.instances.map Prod.fst).Nodup

/-- Every hook in a hook-point registry belongs to a currently enabled
(live) extension. -/
def registryOwners (s : MgrState) : Prop :=
  ∀ h ∈ s.hookRegistry, amem s.instances h.owner = true

/-- Every registered hook is recorded in its owner's ownership set. -/
def registryOwned (s : MgrState) : Prop :=
  ∀ h ∈ s.hookRegistry, ∀ p ∈ s.instances, p.1 = h.owner → h ∈ p.2.hooks

/-- The hook-point registries hold no duplicates. -/
def registryNodup (s : MgrState) : Prop :=
  s.hookRegistry.Nodup

/-- No instance's ownership set holds duplicates. -/
def instHooksNodup (s : MgrState) : Prop :=
  ∀ p ∈ s.instances, p.2.hooks.Nodup

/-- Every known class declares distinct hooks. -/
def classesWf (l : List (String × ExtClass)) : Prop :=
  ∀ p ∈ l, p.2.hookSpecs.Nodup

/-- The hook-ownership invariant maintained by the lifecycle manager. -/
def Inv (s : MgrState) : Prop :=
  ownedOk s ∧ keysNodup s ∧ registryOwners s ∧ registryOwned s ∧
    registryNodup s ∧ instHooksNodup s ∧ classesWf s.classes

instance (s : MgrState) : Decidable (Inv s) := by
  unfold Inv ownedOk keysNodup registryOwners registryOwned registryNodup
    instHooksNodup classesWf
  infer_instance

/-- `Inv` only depends on the instances, the hook registry and the
classes' hook declarations. -/
theorem Inv_of (s s' : MgrState) (hi : s'.instances = s.instances)
    (hr : s'.hookRegistry = s.hookRegistry)
    (hcw : classesWf s'.classes) (h : Inv s) : Inv s' := by
  obtain ⟨h1, h2, h3, h4, h5, h6, _⟩ := h
  refine ⟨?_, ?_, ?_, ?_, ?_, ?_, hcw⟩
  · intro p hp h hh
    exact h1 p (hi ▸ hp) h hh
  · show (s'.instances.map Prod.fst).Nodup
    rw [hi]
    exact h2
  · intro h hh
    rw [amem]
    rw [show s'.instances = s.instances from hi]
    exact h3 h (hr ▸ hh)
  · intro h hh p hp hpo
    exact h4 h (hr ▸ hh) p (hi ▸ hp) hpo
  · show s'.hookRegistry.Nodup
    rw [hr]
    exact h5
  · intro p hp
    exact h6 p (hi ▸ hp)

theorem classesWf_aupd (l : List (String × ExtClass)) (k : String)
    (f : ExtClass → ExtClass)
    (hf : ∀ c, (f c).hookSpecs = c.hookSpecs)
    (h : classesWf l) : classesWf (aupd l k f) := by
  intro p hp
  rw [aupd] at hp
  obtain ⟨q, hq, hpq⟩ := List.mem_map.mp hp
  by_cases hqk : q.1 = k
  · rw [if_pos hqk] at hpq
    rw [← hpq]
    show (f q.2).hookSpecs.Nodup
    rw [hf]
    exact h q hq
  · rw [if_neg hqk] at hpq
    rw [← hpq]
    exact h q hq

theorem foldl_erase_sublist (hooks : List Hook) :
    ∀ reg : List Hook,
      (hooks.foldl (fun r h => r.erase h) reg).Sublist reg := by
  induction hooks with
  | nil => intro reg; exact List.Sublist.refl reg
  | cons h hs ih =>
    intro reg
    exact (ih (reg.erase h)).trans (List.erase_sublist h reg)

theorem mem_of_mem_foldl_erase {x : Hook} {hooks reg : List Hook}
    (hx : x ∈ hooks.foldl (fun r h => r.erase h) reg) : x ∈ reg :=
  (foldl_erase_sublist hooks reg).subset hx

theorem not_mem_foldl_erase (hooks : List Hook) :
    ∀ reg : List Hook, reg.Nodup → ∀ x ∈ hooks,
      x ∉ hooks.foldl (fun r h => r.erase h) reg := by
  induction hooks with
  | nil => intro reg _ x hx; simp at hx
  | cons h hs ih =>
    intro reg hnd x hx
    rcases List.mem_cons.mp hx with rfl | hx'
    · intro hmem
      have hxe : x ∈ reg.erase x := mem_of_mem_foldl_erase hmem
      exact absurd rfl ((hnd.mem_erase_iff.mp hxe).1)
    · exact ih (reg.erase h) (hnd.erase h) x hx'

/-- `_install_extension` preserves the hook invariant (it never touches
instances, hook registries, or hook declarations). -/
theorem Inv_installExtension (s : MgrState) (id : String) (c : ExtClass)
    (h : Inv s) : Inv (installExtension s id c).s := by
  refine Inv_of s _ (installExtension_instances s id c)
    (installExtension_hookRegistry s id c) ?_ h
  have hcw := h.2.2.2.2.2.2
  by_cases hfs : id ∈ s.fsAssets <;>
  by_cases hh : c.hasHtdocs = true <;>
  by_cases hcf : c.copyFails = true <;>
  by_cases hmf : c.migrationFails = true <;>
  simp [installExtension, hfs, hh, hcf, hmf, setRegistration,
      addToInstalledApps_classes, removeFromInstalledApps_classes] <;>
  first
  | exact hcw
  | exact classesWf_aupd _ _ _ (fun c' => rfl) hcw
  | exact classesWf_aupd _ _ _ (fun c' => rfl)
      (classesWf_aupd _ _ _ (fun c' => rfl) hcw)

/-- `setRegistration` preserves the hook invariant. -/
theorem Inv_setRegistration (s : MgrState) (id : String)
    (f : Registration → Registration) (h : Inv s) :
    Inv (setRegistration s id f) := by
  refine Inv_of s _ rfl rfl ?_ h
  exact classesWf_aupd s.classes id
    (fun c' => { c' with registration := f c'.registration })
    (fun c' => rfl) h.2.2.2.2.2.2

/-- `_init_extension` preserves the hook invariant: the fresh instance
owns exactly the hooks it registers, under its own id, which had no
live instance before. -/
theorem Inv_initExtension (s : MgrState) (id : String) (h : Inv s) :
    Inv (initExtension s id).s := by
  obtain ⟨h1, h2, h3, h4, h5, h6, h7⟩ := h
  cases hcls : alookup s.classes id with
  | none =>
    have hsame : (initExtension s id).s = s := by
      simp [initExtension, hcls]
    rw [hsame]
    exact ⟨h1, h2, h3, h4, h5, h6, h7⟩
  | some c =>
    cases hins : amem s.instances id with
    | true =>
      have hsame : (initExtension s id).s = s := by
        simp [initExtension, hcls, hins]
      rw [hsame]
      exact ⟨h1, h2, h3, h4, h5, h6, h7⟩
    | false =>
      obtain ⟨_, hInst, hHooks, _, _⟩ := initExtension_ok s id c hcls hins
      have hcw : classesWf (initExtension s id).s.classes := by
        by_cases hconf : c.is_configurable = true <;>
        simp [initExtension, hcls, hins, hconf, addToInstalledApps_classes] <;>
        exact classesWf_aupd _ _ _ (fun c' => rfl) h7
      have hspec : c.hookSpecs.Nodup := h7 (id, c) (alookup_mem _ _ _ hcls)
      have hhn : (mkHooks id c.hookSpecs).Nodup :=
        mkHooks_nodup id c.hookSpecs hspec
      have hid_not : id ∉ s.instances.map Prod.fst := by
        refine (alookup_eq_none_iff s.instances id).mp ?_
        exact (amem_false_iff _ _).mp hins
      refine ⟨?_, ?_, ?_, ?_, ?_, ?_, hcw⟩
      · intro p hp hk hkk
        rw [hInst] at hp
        rcases List.mem_append.mp hp with hp' | hp'
        · exact h1 p hp' hk hkk
        · have hpe := List.mem_singleton.mp hp'
          rw [hpe] at hkk ⊢
          exact mkHooks_owner id c.hookSpecs hk hkk
      · show ((initExtension s id).s.instances.map Prod.fst).Nodup
        rw [hInst, List.map_append]
        rw [List.nodup_append]
        refine ⟨h2, List.nodup_singleton id, ?_⟩
        intro a ha hb
        rw [List.map_singleton, List.mem_singleton] at hb
        rw [hb] at ha
        exact hid_not ha
      · intro hk hh
        rw [hHooks] at hh
        rw [amem, hInst, alookup_append]
        rcases List.mem_append.mp hh with hh' | hh'
        · have hsome := h3 hk hh'
          rw [amem] at hsome
          obtain ⟨v, hv⟩ := Option.isSome_iff_exists.mp hsome
          rw [hv]
          rfl
        · have hown := mkHooks_owner id c.hookSpecs hk hh'
          have halo : alookup s.instances hk.owner = none := by
            rw [hown]
            exact (amem_false_iff _ _).mp hins
          rw [halo, hown]
          simp [alookup]
      · intro hk hh p hp hpo
        rw [hHooks] at hh
        rw [hInst] at hp
        rcases List.mem_append.mp hh with hh' | hh' <;>
          rcases List.mem_append.mp hp with hp' | hp'
        · exact h4 hk hh' p hp' hpo
        · exfalso
          have hpe := List.mem_singleton.mp hp'
          have hown : hk.owner = id := by rw [← hpo, hpe]
          have := h3 hk hh'
          rw [hown, hins] at this
          exact absurd this (by simp)
        · exfalso
          have hown := mkHooks_owner id c.hookSpecs hk hh'
          have : p.1 = id := by rw [hpo, hown]
          apply hid_not
          rw [← this]
          exact List.mem_map_of_mem Prod.fst hp'
        · have hpe := List.mem_singleton.mp hp'
          rw [hpe]
          exact hh'
      · show (initExtension s id).s.hookRegistry.Nodup
        rw [hHooks, List.nodup_append]
        refine ⟨h5, hhn, ?_⟩
        intro x hx hx'
        have hown := mkHooks_owner id c.hookSpecs x hx'
        have := h3 x hx
        rw [hown, hins] at this
        exact absurd this (by simp)
      · intro p hp
        rw [hInst] at hp
        rcases List.mem_append.mp hp with hp' | hp'
        · exact h6 p hp'
        · have hpe := List.mem_singleton.mp hp'
          rw [hpe]
          exact hhn

/-- `_uninit_extension` preserves the hook invariant: the dropped
instance's hooks are exactly the ones erased from the registries. -/
theorem Inv_uninitExtension (s : MgrState) (id : String) (h : Inv s) :
    Inv (uninitExtension s id).1 := by
  obtain ⟨h1, h2, h3, h4, h5, h6, h7⟩ := h
  cases hinst : alookup s.instances id with
  | none =>
    have hsame : (uninitExtension s id).1 = s := by
      simp [uninitExtension, hinst]
    rw [hsame]
    exact ⟨h1, h2, h3, h4, h5, h6, h7⟩
  | some inst =>
    have hInstL : (uninitExtension s id).1.instances =
        adel s.instances id := by
      by_cases hadmin : inst.hasAdminUrls = true <;>
      by_cases happ : id ∈ s.installedApps <;>
      simp [uninitExtension, hinst, hadmin, happ, removeFromInstalledApps]
    have hRegL := (uninitExtension_ok s id inst hinst).2.2.1
    have hcw : classesWf (uninitExtension s id).1.classes := by
      by_cases hadmin : inst.hasAdminUrls = true <;>
      by_cases happ : id ∈ s.installedApps <;>
      simp [uninitExtension, hinst, hadmin, happ,
            removeFromInstalledApps] <;>
      exact classesWf_aupd _ _ _ (fun c' => rfl) h7
    have hinstmem : (id, inst) ∈ s.instances := alookup_mem _ _ _ hinst
    refine ⟨?_, ?_, ?_, ?_, ?_, ?_, hcw⟩
    · intro p hp hk hkk
      rw [hInstL] at hp
      exact h1 p (List.mem_of_mem_filter hp) hk hkk
    · show ((uninitExtension s id).1.instances.map Prod.fst).Nodup
      rw [hInstL]
      exact ((List.filter_sublist _).map Prod.fst).nodup h2
    · intro hk hh
      rw [hRegL] at hh
      have hkreg : hk ∈ s.hookRegistry := mem_of_mem_foldl_erase hh
      rw [amem, hInstL, alookup_adel]
      by_cases ho : hk.owner = id
      · exfalso
        have hkown : hk ∈ inst.hooks := h4 hk hkreg (id, inst) hinstmem ho.symm
        exact not_mem_foldl_erase inst.hooks s.hookRegistry h5 hk hkown hh
      · rw [if_neg ho]
        exact h3 hk hkreg
    · intro hk hh p hp hpo
      rw [hRegL] at hh
      rw [hInstL] at hp
      exact h4 hk (mem_of_mem_foldl_erase hh) p (List.mem_of_mem_filter hp) hpo
    · show (uninitExtension s id).1.hookRegistry.Nodup
      rw [hRegL]
      exact List.Nodup.sublist (foldl_erase_sublist _ _) h5
    · intro p hp
      rw [hInstL] at hp
      exact h6 p (List.mem_of_mem_filter hp)

/-- The whole disable tail preserves the hook invariant. -/
theorem Inv_disableFinish (s : MgrState) (id : String) (h : Inv s) :
    Inv (disableFinish s id).1 := by
  have ha : Inv (uninstallExtension s id).1 := by
    refine Inv_of s _ (uninstallExtension_instances s id)
      (uninstallExtension_hookRegistry s id) ?_ h
    rw [uninstallExtension_classes]
    exact h.2.2.2.2.2.2
  have hb : Inv (uninitExtension (uninstallExtension s id).1 id).1 :=
    Inv_uninitExtension _ id ha
  rw [disableFinish_fst]
  exact Inv_setRegistration _ _ _ hb

/-- A property preserved by every step of a `stepLoop` is preserved by
the whole loop. -/
theorem stepLoop_preserves_prop (P : MgrState → Prop)
    (step : MgrState → String → StepRes)
    (hstep : ∀ s rid, P s → P (step s rid).s) :
    ∀ s ids, P s → P (stepLoop step s ids).s := by
  intro s ids
  induction ids generalizing s with
  | nil => intro h; exact h
  | cons rid rest ih =>
    intro h
    rw [stepLoop]
    generalize her : (step s rid).err = e
    cases e with
    | some e => exact hstep s rid h
    | none => exact ih _ (hstep s rid h)

/-- `enable_extension` preserves the hook invariant (any fuel, any
requirement recursion). -/
theorem Inv_enableExt (fuel : Nat) :
    ∀ s id, Inv s → Inv (enableExt fuel s id).s := by
  induction fuel with
  | zero => intro s id h; exact h
  | succ fuel ih =>
    intro s id h
    rw [enableExt]
    by_cases hins : amem s.instances id
    · simpa [hins] using h
    · cases hcls : alookup s.classes id with
      | none => simpa [hins, hcls] using h
      | some c =>
        simp only [hins, Bool.false_eq_true, if_false, hcls]
        have hr : Inv (stepLoop (fun s' rid =>
            let er := enableExt fuel s' rid
            ⟨er.s, er.evs, er.err⟩) s c.requirements).s :=
          stepLoop_preserves_prop Inv _
            (fun s' rid hh => ih s' rid hh) s c.requirements h
        generalize hrdef : stepLoop (fun s' rid =>
            let er := enableExt fuel s' rid
            ⟨er.s, er.evs, er.err⟩) s c.requirements = r at hr ⊢
        generalize her : r.err = rerr
        cases rerr with
        | some e => exact hr
        | none =>
          have hinstall : Inv (installExtension r.s id c).s :=
            Inv_installExtension r.s id c hr
          generalize hier : (installExtension r.s id c).err = ierr
          cases ierr with
          | some e =>
            cases e <;> exact hinstall
          | none =>
            have hinit : Inv (initExtension (setRegistration
                (installExtension r.s id c).s id
                (fun reg => { reg with enabled := true })) id).s :=
              Inv_initExtension _ id (Inv_setRegistration _ _ _ hinstall)
            generalize hiee : (initExtension (setRegistration
                (installExtension r.s id c).s id
                (fun reg => { reg with enabled := true })) id).err = ieerr
            cases ieerr with
            | some e => exact hinit
            | none => exact hinit

/-- `disable_extension` preserves the hook invariant (any fuel, any
reverse-dependency cascade). -/
theorem Inv_disableExt (fuel : Nat) :
    ∀ s id, Inv s → Inv (disableExt fuel s id).s := by
  induction fuel with
  | zero => intro s id h; exact h
  | succ fuel ih =>
    intro s id h
    rw [disableExt]
    by_cases hins : amem s.instances id
    · cases hcls : alookup s.classes id with
      | none => simpa [hins, hcls] using h
      | some c =>
        simp only [hins, if_true, hcls]
        have hr : Inv (stepLoop (disableExt fuel) s
            (getDependentExtensions s id)).s :=
          stepLoop_preserves_prop Inv _
            (fun s' rid hh => ih s' rid hh) s (getDependentExtensions s id) h
        generalize hrdef : stepLoop (disableExt fuel) s
          (getDependentExtensions s id) = dr at hr ⊢
        generalize her : dr.err = derr
        cases derr with
        | some e => exact hr
        | none => exact Inv_disableFinish dr.s id hr
    · simpa [hins] using h

/-- An enable/disable call, as an opaque lifecycle operation. -/
inductive LifecycleOp where
  | enable (id : String)
  | disable (id : String)
deriving Repr, DecidableEq

/-- Apply one lifecycle operation to the manager state. -/
def applyOp (fuel : Nat) (s : MgrState) : LifecycleOp → MgrState
  | LifecycleOp.enable id => (enableExt fuel s id).s
  | LifecycleOp.disable id => (disableExt fuel s id).s

/-- Run a sequence of enable/disable operations. -/
def runOps (fuel : Nat) (s : MgrState) : List LifecycleOp → MgrState
  | [] => s
  | op :: rest => runOps fuel (applyOp fuel s op) rest

theorem Inv_runOps (fuel : Nat) :
    ∀ ops s, Inv s → Inv (runOps fuel s ops) := by
  intro ops
  induction ops with
  | nil => intro s h; exact h
  | cons op rest ih =>
    intro s h
    rw [runOps]
    refine ih _ ?_
    cases op with
    | enable id => exact Inv_enableExt fuel s id h
    | disable id => exact Inv_disableExt fuel s id h

theorem nodup_keys_eq {α : Type} (l : List (String × α))
    (hnd : (l.map Prod.fst).Nodup) :
    ∀ p ∈ l, ∀ q ∈ l, p.1 = q.1 → p = q := by
  induction l with
  | nil => intro p hp; simp at hp
  | cons x rest ih =>
    rw [List.map_cons, List.nodup_cons] at hnd
    intro p hp q hq hpq
    rcases List.mem_cons.mp hp with rfl | hp' <;>
      rcases List.mem_cons.mp hq with rfl | hq'
    · rfl
    · exact absurd (hpq ▸ List.mem_map_of_mem Prod.fst hq') hnd.1
    · exact absurd (hpq ▸ List.mem_map_of_mem Prod.fst hp') hnd.1
    · exact ih hnd.2 p hp' q hq' hpq

/-- C10 (confirmed): starting from a state satisfying the hook
invariant, any sequence of `enable_extension` / `disable_extension`
calls keeps it: every hook lies in at most one instance's ownership set
(two instances sharing a hook are the same entry), and no hook-point
registry holds a hook whose owning extension has no live instance —
disabling removes every hook the instance owns from the registries. -/
theorem hook_ownership_invariant (fuel : Nat) (s : MgrState)
    (ops : List LifecycleOp) (hInv : Inv s) :
    (∀ p ∈ (runOps fuel s ops).instances,
       ∀ q ∈ (runOps fuel s ops).instances,
       ∀ hk, hk ∈ p.2.hooks → hk ∈ q.2.hooks → p = q) ∧
    (∀ hk ∈ (runOps fuel s ops).hookRegistry,
       amem (runOps fuel s ops).instances hk.owner = true) := by
  obtain ⟨h1, h2, h3, _, _, _, _⟩ := Inv_runOps fuel ops s hInv
  refine ⟨?_, h3⟩
  intro p hp q hq hk hkp hkq
  have e1 := h1 p hp hk hkp
  have e2 := h1 q hq hk hkq
  exact nodup_keys_eq _ h2 p hp q hq (e1.symm.trans e2)

/-- Witness for `hook_ownership_invariant`: enable `B` (which cascades
to `A`), then disable `A` (which cascades back to `B`), starting from
the discovered-but-disabled pair. -/
theorem hook_ownership_invariant_witness :
    (∀ p ∈ (runOps 3 sAB [LifecycleOp.enable "B",
        LifecycleOp.disable "A"]).instances,
       ∀ q ∈ (runOps 3 sAB [LifecycleOp.enable "B",
        LifecycleOp.disable "A"]).instances,
       ∀ hk, hk ∈ p.2.hooks → hk ∈ q.2.hooks → p = q) ∧
    (∀ hk ∈ (runOps 3 sAB [LifecycleOp.enable "B",
        LifecycleOp.disable "A"]).hookRegistry,
       amem (runOps 3 sAB [LifecycleOp.enable "B",
        LifecycleOp.disable "A"]).instances hk.owner = true) :=
  hook_ownership_invariant 3 sAB
    [LifecycleOp.enable "B", LifecycleOp.disable "A"] (by decide)

end Djblets
